import Mathlib

/-!
Verification development for the Sudoku solver repository (SudokuSolver.py).

The program is shallowly embedded as executable Lean functions.  The Python
program is single threaded and its mutable state is threaded explicitly:

* a 9x9 grid of cell numbers is a List (List Nat); Python stores the board
  both as a 9 line digit string and as a grid of SudokuCell objects, and
  converting between the two (str of a digit, int of a digit character) is
  the identity on the digits 0..9, so both views are represented by the
  same digit matrix;
* a SudokuSet (row / column / box) keeps a reference list of its nine member
  cells and a valid_numbers set.  The member references always point at the
  fixed positions of the owning board, so member numbers are read off the
  grid by position; valid_numbers is an explicit list (Python iterates sets
  of small ints in an arbitrary order that the spec declares irrelevant; we
  keep the ascending representative);
* the class level list SudokuTreeNode.solved_boards is process global state
  and is threaded through every function as a registry argument;
* the two unbounded loops of the program (the elimination fixpoint in
  SudokuBoard.solve_board and the recursion over child nodes) take an
  explicit fuel argument; running out of fuel is reported by a dedicated
  outcome constructor so that no genuine program outcome is fabricated.
-/

/-- SudokuCellReturnValues (SudokuSolver.py lines 6-10). -/
inductive SudokuCellReturnValues where
  | ALREADY_FILLED
  | ZERO_VALUES
  | ONE_VALUE
  | MULTIPLE_VALUES
deriving DecidableEq, Repr

/-- SudokuBoardReturnValues (lines 13-16), extended with the two ways the
embedded partial functions can fail to produce a Python value: OUT_OF_FUEL
(the explicit fuel for the while loop ran out) and ASSERT_FAIL (the assert
on line 246 fired).  Neither extra constructor is ever produced on the
concrete runs below. -/
inductive SudokuBoardReturnValues where
  | NO_SOLUTIONS
  | UNKNOWN
  | SOLVED
  | OUT_OF_FUEL
  | ASSERT_FAIL
deriving DecidableEq, Repr

/-- SudokuTreeNodeState (lines 19-22). -/
inductive SudokuTreeNodeState where
  | NO_SOLUTIONS
  | UNKNOWN
  | SOLVED
deriving DecidableEq, Repr

/-- A 9x9 grid of cell numbers, 0 meaning blank (SudokuCell.number). -/
abbrev Grid := List (List Nat)

/-- Cell number at (row, column); out of range reads give 0 and never occur
on well formed boards. -/
def cellAt (g : Grid) (r c : Nat) : Nat := (g.getD r []).getD c 0

/-- SudokuCell.get_indexes (lines 39-46): box index of a position. -/
def boxIndex (r c : Nat) : Nat := r / 3 * 3 + c / 3

/-- The 81 positions in the row major order in which do_one_iteration visits
the cells (for row in self.board: for cell in row). -/
def allPositions : List (Nat × Nat) :=
  (List.range 9).flatMap (fun r => (List.range 9).map (fun c => (r, c)))

/-- Member numbers of row group i: the cells appended by
setup_internal_representation are exactly row i of the grid. -/
def rowNumbers (g : Grid) (i : Nat) : List Nat := g.getD i []

/-- Member numbers of column group j, in the order the cells were appended
(row major scan). -/
def colNumbers (g : Grid) (j : Nat) : List Nat := g.map (fun row => row.getD j 0)

/-- Positions belonging to box b, in the row major order in which
setup_internal_representation appends them to the box. -/
def boxPositions (b : Nat) : List (Nat × Nat) :=
  allPositions.filter (fun p => boxIndex p.1 p.2 = b)

/-- Member numbers of box group b. -/
def boxNumbers (g : Grid) (b : Nat) : List Nat :=
  (boxPositions b).map (fun p => cellAt g p.1 p.2)

/-- The internal representation of a live SudokuBoard: the cell grid plus
the valid_numbers list of each of the 9 rows, 9 columns and 9 boxes, and
multi_possibility_cells.  A multi entry records the position of the cell
together with the possible_numbers it computed when it reported
MULTIPLE_VALUES (Python keeps possible_numbers on the cell object and the
multi list holds references to the cells; the snapshot is taken when the
entry is appended, which is faithful because the list is only consumed
right after an iteration in which no cell changed). -/
structure BoardRep where
  board : Grid
  rowsValid : List (List Nat)
  colsValid : List (List Nat)
  boxesValid : List (List Nat)
  multi : List (Nat × Nat × List Nat)
deriving DecidableEq, Repr

/-- SudokuBoard.setup_internal_representation (lines 115-130): every group
starts with valid_numbers = set(range(1, 10)), the grid holds the parsed
digits of the input text (parsing a digit character is the identity on the
digit matrix view), and multi_possibility_cells is the empty list the board
was constructed with. -/
def setup_internal_representation (input : Grid) : BoardRep :=
  { board := input
    rowsValid := List.replicate 9 (List.range' 1 9)
    colsValid := List.replicate 9 (List.range' 1 9)
    boxesValid := List.replicate 9 (List.range' 1 9)
    multi := [] }

/-- SudokuBoard.del_internal_representation (lines 132-141): clears the
cell grid and all three group lists (multi_possibility_cells is not
touched there). -/
def del_internal_representation (s : BoardRep) : BoardRep :=
  { board := [], rowsValid := [], colsValid := [], boxesValid := [], multi := s.multi }

/-- SudokuSet.eliminate_numbers (lines 85-93): for each member cell, remove
its number from valid_numbers; removing an absent number is a silent no-op
(the KeyError is passed), which is exactly List.erase on a list without
duplicates. -/
def eliminate_numbers (valid : List Nat) (members : List Nat) : List Nat :=
  members.foldl (fun v n => v.erase n) valid

/-- Re-run eliminate_numbers on row group i of the current state. -/
def eliminateRow (s : BoardRep) (i : Nat) : BoardRep :=
  { s with rowsValid := s.rowsValid.set i (eliminate_numbers (s.rowsValid.getD i []) (rowNumbers s.board i)) }

/-- Re-run eliminate_numbers on column group j of the current state. -/
def eliminateCol (s : BoardRep) (j : Nat) : BoardRep :=
  { s with colsValid := s.colsValid.set j (eliminate_numbers (s.colsValid.getD j []) (colNumbers s.board j)) }

/-- Re-run eliminate_numbers on box group b of the current state. -/
def eliminateBox (s : BoardRep) (b : Nat) : BoardRep :=
  { s with boxesValid := s.boxesValid.set b (eliminate_numbers (s.boxesValid.getD b []) (boxNumbers s.board b)) }

/-- The initial baseline elimination pass of solve_board (lines 229-230):
every one of the 27 groups runs eliminate_numbers once against the freshly
parsed grid. -/
def initial_eliminate (s : BoardRep) : BoardRep :=
  { s with
    rowsValid := (List.range 9).map (fun i => eliminate_numbers (s.rowsValid.getD i []) (rowNumbers s.board i))
    colsValid := (List.range 9).map (fun j => eliminate_numbers (s.colsValid.getD j []) (colNumbers s.board j))
    boxesValid := (List.range 9).map (fun b => eliminate_numbers (s.boxesValid.getD b []) (boxNumbers s.board b)) }

/-- Write value v into the grid at (r, c). -/
def setCell (g : Grid) (r c v : Nat) : Grid := g.set r ((g.getD r []).set c v)

/-- The possible_numbers computation of solve_this_cell (lines 62-64):
the members of range(1, 10) that lie in the valid_numbers of all three
owning groups. -/
def possible_numbers_of (s : BoardRep) (r c : Nat) : List Nat :=
  (List.range' 1 9).filter (fun n =>
    decide (n ∈ s.rowsValid.getD r []) &&
    decide (n ∈ s.colsValid.getD c []) &&
    decide (n ∈ s.boxesValid.getD (boxIndex r c) []))

/-- SudokuCell.solve_this_cell (lines 48-73).  Returns the outcome, the
possible_numbers the cell computed (empty and unused on the ALREADY_FILLED
path, which returns before computing them) and the cell grid after the
call (changed exactly on the ONE_VALUE path, where the unique candidate is
assigned to the cell). -/
def solve_this_cell (s : BoardRep) (r c : Nat) : SudokuCellReturnValues × List Nat × Grid :=
  if cellAt s.board r c ≠ 0 then
    (.ALREADY_FILLED, [], s.board)
  else
    let possible_numbers := possible_numbers_of s r c
    if possible_numbers.length = 1 then
      (.ONE_VALUE, possible_numbers, setCell s.board r c (possible_numbers.headD 0))
    else if possible_numbers.length = 0 then
      (.ZERO_VALUES, possible_numbers, s.board)
    else
      (.MULTIPLE_VALUES, possible_numbers, s.board)

/-- Result of SudokuBoard.do_one_iteration: either the ZERO_VALUES enum
value (returned as soon as any cell reports it) or the change_in_board
boolean. -/
inductive IterResult where
  | zero
  | changed (b : Bool)
deriving DecidableEq, Repr

/-- The body of do_one_iteration (lines 173-191): visit the remaining
positions in order, threading the state and the change_in_board flag.
On ONE_VALUE the three groups owning the cell re-run eliminate_numbers
against the updated grid; on MULTIPLE_VALUES the cell and its computed
possible_numbers are appended to multi_possibility_cells. -/
def iterCells : List (Nat × Nat) → BoardRep → Bool → IterResult × BoardRep
  | [], s, chg => (.changed chg, s)
  | (r, c) :: ps, s, chg =>
    match solve_this_cell s r c with
    | (.ALREADY_FILLED, _, _) => iterCells ps s chg
    | (.ZERO_VALUES, _, _) => (.zero, s)
    | (.ONE_VALUE, _, g) =>
      iterCells ps (eliminateBox (eliminateCol (eliminateRow { s with board := g } r) c) (boxIndex r c)) true
    | (.MULTIPLE_VALUES, poss, _) =>
      iterCells ps { s with multi := s.multi ++ [(r, c, poss)] } chg

/-- SudokuBoard.do_one_iteration (lines 161-191): reset
multi_possibility_cells and change_in_board, then walk all 81 cells in row
major order. -/
def do_one_iteration (s : BoardRep) : IterResult × BoardRep :=
  iterCells allPositions { s with multi := [] } false

/-- How the elimination while loop of solve_board (lines 232-237) exits:
a round reported ZERO_VALUES, or a round reported no change, or the fuel
bound was reached. -/
inductive LoopExit where
  | contradiction
  | stalled
  | fuelOut
deriving DecidableEq, Repr

/-- The while loop of solve_board (lines 232-237): result starts truthy, so
do_one_iteration always runs at least once; it is repeated while it reports
a change, and a ZERO_VALUES round exits the loop at once. -/
def solveLoop : Nat → BoardRep → LoopExit × BoardRep
  | 0, s => (.fuelOut, s)
  | fuel + 1, s =>
    match do_one_iteration s with
    | (.zero, s1) => (.contradiction, s1)
    | (.changed true, s1) => solveLoop fuel s1
    | (.changed false, s1) => (.stalled, s1)

/-- The data a child SudokuTreeNode is created with by
establish_child_tree_nodes: the guessed board text and the depth
(parent depth + 1). -/
structure ChildSeed where
  grid : Grid
  depth : Nat
deriving DecidableEq, Repr

/-- The selection fold of establish_child_tree_nodes (lines 201-205):
scan multi_possibility_cells keeping the first cell whose possible_numbers
count is strictly below every count seen so far.  The accumulator starts
with the sentinel (10, (-1, -1), empty) of line 201; positions are kept as
integers so the sentinel is representable, and it survives only when the
multi list is empty. -/
def select_branch_cell (multi : List (Nat × Nat × List Nat)) : Nat × (Int × Int) × List Nat :=
  multi.foldl
    (fun acc cell =>
      if cell.2.2.length < acc.1 then (cell.2.2.length, ((cell.1 : Int), (cell.2.1 : Int)), cell.2.2) else acc)
    (10, (-1, -1), [])

/-- SudokuBoard.establish_child_tree_nodes (lines 193-216): pick the branch
cell, then for each of its possible numbers produce one child seed holding
the current board text with the guess substituted at the chosen position
and depth = parent depth + 1.  Splitting the string into a character
matrix, substituting and joining again is the grid update at the chosen
position. -/
def establish_child_tree_nodes (s : BoardRep) (depth : Nat) : List ChildSeed :=
  match select_branch_cell s.multi with
  | (_, (row, column), possibilities) =>
    possibilities.map (fun possibility =>
      { grid := setCell s.board row.toNat column.toNat possibility, depth := depth + 1 })

/-- The check on line 241: the board text contains no 0 digit, i.e. every
cell is assigned (cell numbers are always single digits on real runs). -/
def noZero (g : Grid) : Bool := g.all (fun row => row.all (fun x => decide (x ≠ 0)))

/-- Everything SudokuBoard.solve_board produces: the return value, the
final internal representation (released on the SOLVED and branching paths,
untouched by the ZERO_VALUES path), the registry (solved_boards) after the
call, and the child seeds appended to the owning tree node. -/
structure BoardSolveResult where
  outcome : SudokuBoardReturnValues
  rep : BoardRep
  registry : List Grid
  childSeeds : List ChildSeed
deriving DecidableEq, Repr

/-- SudokuBoard.solve_board (lines 218-253) up to the recursion into the
children (which line 251 delegates to the owning tree node and is handled
by solve_tree_node below): set up the representation, run the baseline
elimination over all 27 groups, run the iteration loop; on ZERO_VALUES
return NO_SOLUTIONS (the representation is not released on this path); on
a stall with a complete grid append it to solved_boards, release and
return SOLVED; otherwise the assert of line 246 demands a nonempty
multi_possibility_cells, the children are established and the board is
released. -/
def solve_board (fuel : Nat) (input : Grid) (depth : Nat) (registry : List Grid) : BoardSolveResult :=
  match solveLoop fuel (initial_eliminate (setup_internal_representation input)) with
  | (.fuelOut, s) => { outcome := .OUT_OF_FUEL, rep := s, registry := registry, childSeeds := [] }
  | (.contradiction, s) => { outcome := .NO_SOLUTIONS, rep := s, registry := registry, childSeeds := [] }
  | (.stalled, s) =>
    if noZero s.board then
      { outcome := .SOLVED
        rep := del_internal_representation s
        registry := registry ++ [s.board]
        childSeeds := [] }
    else if s.multi.isEmpty then
      { outcome := .ASSERT_FAIL, rep := s, registry := registry, childSeeds := [] }
    else
      { outcome := .UNKNOWN
        rep := del_internal_representation s
        registry := registry
        childSeeds := establish_child_tree_nodes s depth }

/-- A SudokuTreeNode after the solve: its final state, its (pruned) child
list and its depth.  The board reference, the parent back-pointer and the
original_board string carry no information the claims observe (on every
node original_board is in fact the empty string, because the constructor
reads get_str_rep_of_board before setup_internal_representation has run). -/
inductive TreeNode where
  | mk : SudokuTreeNodeState → List TreeNode → Nat → TreeNode

/-- Final state of a tree node. -/
def TreeNode.state : TreeNode → SudokuTreeNodeState
  | .mk st _ _ => st

/-- Pruned child list of a tree node. -/
def TreeNode.child_nodes : TreeNode → List TreeNode
  | .mk _ ch _ => ch

/-- Depth of a tree node. -/
def TreeNode.depth : TreeNode → Nat
  | .mk _ _ d => d

/-- Line 286 compares the child node OBJECT to the enum member
SudokuTreeNodeState.SOLVED (if node == SudokuTreeNodeState.SOLVED), not
the node state field.  Neither class overrides equality against the other
type, so the comparison falls back to object identity and is always
False. -/
def nodeEqualsSolvedTag (_ : TreeNode) : Bool := false

/-- The aggregation step of solve_child_boards (lines 283-287): if the
node state is still UNKNOWN, set it to NO_SOLUTIONS, then scan the
children setting it to SOLVED whenever the (always false) line 286 test
fires. -/
def aggregate_state (st : SudokuTreeNodeState) (children : List TreeNode) : SudokuTreeNodeState :=
  if st = .UNKNOWN then
    children.foldl (fun acc node => if nodeEqualsSolvedTag node then .SOLVED else acc) .NO_SOLUTIONS
  else st

/-- The pruning pass of solve_child_boards (lines 289-291): a Python for
loop over self.child_nodes whose body removes the current element from the
list being iterated.  The loop keeps an internal index k: it yields
element k and then increments k.  When the body removes the element (pop
at list.index(node), which under the default identity equality is the
position k the object was just read from), the element that slides into
slot k is skipped.  The recursion is written with an explicit step budget
equal to the initial length, which the scan never exhausts before its exit
condition k >= current length holds. -/
def pruneGo : Nat → Nat → List TreeNode → List TreeNode
  | 0, _, l => l
  | steps + 1, k, l =>
    if h : k < l.length then
      if (l.get ⟨k, h⟩).state = SudokuTreeNodeState.NO_SOLUTIONS then
        pruneGo steps (k + 1) (l.eraseIdx k)
      else
        pruneGo steps (k + 1) l
    else l

/-- The pruning pass of solve_child_boards over a freshly solved child
list. -/
def prune_no_solution_children (l : List TreeNode) : List TreeNode := pruneGo l.length 0 l

/-- The child recursion of solve_child_boards (lines 280-281): solve every
child in sequence, threading the shared solved_boards registry, and
collect the resulting nodes in order.  The solver for a single node is
passed in as f. -/
def solve_children (f : Grid → Nat → List Grid → TreeNode × List Grid) :
    List ChildSeed → List Grid → List TreeNode × List Grid
  | [], registry => ([], registry)
  | seed :: rest, registry =>
    match f seed.grid seed.depth registry with
    | (node, registry1) =>
      match solve_children f rest registry1 with
      | (nodes, registry2) => (node :: nodes, registry2)

/-- SudokuTreeNode.solve_board (lines 272-277) together with
solve_child_boards (lines 279-291), which the board calls from inside its
own solve_board when it branches: solve the board; map BOARD SOLVED and
NO_SOLUTIONS onto the node state; when the board branched, solve every
child in order, aggregate the state (lines 283-287) and run the pruning
pass (lines 289-291).  The fuel bounds the recursion depth; a node whose
fuel is exhausted is left UNKNOWN with no children and an untouched
registry, and this never happens on the concrete runs below. -/
def solve_tree_node : Nat → Grid → Nat → List Grid → TreeNode × List Grid
  | 0, _, depth, registry => (.mk .UNKNOWN [] depth, registry)
  | fuel + 1, grid, depth, registry =>
    match solve_board (fuel + 1) grid depth registry with
    | { outcome := outcome, rep := _, registry := registry1, childSeeds := seeds } =>
      match outcome with
      | .SOLVED => (.mk .SOLVED [] depth, registry1)
      | .NO_SOLUTIONS => (.mk .NO_SOLUTIONS [] depth, registry1)
      | .OUT_OF_FUEL => (.mk .UNKNOWN [] depth, registry1)
      | .ASSERT_FAIL => (.mk .UNKNOWN [] depth, registry1)
      | .UNKNOWN =>
        match solve_children (solve_tree_node fuel) seeds registry1 with
        | (children, registry2) =>
          (.mk (aggregate_state .UNKNOWN children) (prune_no_solution_children children) depth, registry2)

/-- A fully solved reference grid (the classic completed puzzle). -/
def solvedGrid : Grid :=
  [[5, 3, 4, 6, 7, 8, 9, 1, 2],
   [6, 7, 2, 1, 9, 5, 3, 4, 8],
   [1, 9, 8, 3, 4, 2, 5, 6, 7],
   [8, 5, 9, 7, 6, 1, 4, 2, 3],
   [4, 2, 6, 8, 5, 3, 7, 9, 1],
   [7, 1, 3, 9, 2, 4, 8, 5, 6],
   [9, 6, 1, 5, 3, 7, 2, 8, 4],
   [2, 8, 7, 4, 1, 9, 6, 3, 5],
   [3, 4, 5, 2, 8, 6, 1, 7, 9]]

/-- solvedGrid blanked at the four cells (3,5), (3,8), (4,5), (4,8), whose
values 1, 3, 3, 1 form an unavoidable rectangle: the puzzle has exactly
two solutions, propagation stalls at once with every blank holding the
two candidates 1 and 3, and both guesses on the first blank complete the
grid by propagation. -/
def puzzleTwoSolutions : Grid :=
  [[5, 3, 4, 6, 7, 8, 9, 1, 2],
   [6, 7, 2, 1, 9, 5, 3, 4, 8],
   [1, 9, 8, 3, 4, 2, 5, 6, 7],
   [8, 5, 9, 7, 6, 0, 4, 2, 0],
   [4, 2, 6, 8, 5, 0, 7, 9, 0],
   [7, 1, 3, 9, 2, 4, 8, 5, 6],
   [9, 6, 1, 5, 3, 7, 2, 8, 4],
   [2, 8, 7, 4, 1, 9, 6, 3, 5],
   [3, 4, 5, 2, 8, 6, 1, 7, 9]]

/-- solvedGrid blanked at two disjoint unavoidable rectangles, at
(3,5), (3,8), (4,5), (4,8) (values 1 and 3) and at (6,3), (6,8), (7,3),
(7,8) (values 5 and 4): the root stalls and branches on the first
rectangle, each child stalls again and branches on the second, and every
grandchild solves, so the puzzle has four solutions and both root
children end the run in state NO_SOLUTIONS because of the line 286
comparison. -/
def puzzleFourSolutions : Grid :=
  [[5, 3, 4, 6, 7, 8, 9, 1, 2],
   [6, 7, 2, 1, 9, 5, 3, 4, 8],
   [1, 9, 8, 3, 4, 2, 5, 6, 7],
   [8, 5, 9, 7, 6, 0, 4, 2, 0],
   [4, 2, 6, 8, 5, 0, 7, 9, 0],
   [7, 1, 3, 9, 2, 4, 8, 5, 6],
   [9, 6, 1, 0, 3, 7, 2, 8, 0],
   [2, 8, 7, 0, 1, 9, 6, 3, 0],
   [3, 4, 5, 2, 8, 6, 1, 7, 9]]

/-- A contradictory grid: cell (0,0) is blank, its row misses only the
digit 1 and its column already holds a 1, so its candidate set is empty
and the very first visited cell reports ZERO_VALUES. -/
def puzzleContradiction : Grid :=
  [[0, 2, 3, 4, 5, 6, 7, 8, 9],
   [1, 0, 0, 0, 0, 0, 0, 0, 0],
   [0, 0, 0, 0, 0, 0, 0, 0, 0],
   [0, 0, 0, 0, 0, 0, 0, 0, 0],
   [0, 0, 0, 0, 0, 0, 0, 0, 0],
   [0, 0, 0, 0, 0, 0, 0, 0, 0],
   [0, 0, 0, 0, 0, 0, 0, 0, 0],
   [0, 0, 0, 0, 0, 0, 0, 0, 0],
   [0, 0, 0, 0, 0, 0, 0, 0, 0]]

/-- A grid whose every cell is the digit 9: no cell is blank, so
solve_board appends it to solved_boards as it stands. -/
def allNines : Grid := List.replicate 9 (List.replicate 9 9)

example : solve_tree_node 0 [] 0 [] = (.mk .UNKNOWN [] 0, []) := rfl




def find_total_nodes : TreeNode → Nat
  | .mk _ ch _ => if ch.isEmpty then 1 else (ch.attach.map (fun x => find_total_nodes x.1)).sum + 1
decreasing_by
  have := List.sizeOf_lt_of_mem x.2
  simp only [TreeNode.mk.sizeOf_spec]
  omega

/-- Every node of the tree rooted at t, the node itself first: the
reference notion of node count used to state what find_total_nodes
computes. -/
def collect_nodes : TreeNode → List TreeNode
  | .mk st ch d => .mk st ch d :: (ch.attach.map (fun x => collect_nodes x.1)).flatten
decreasing_by
  have := List.sizeOf_lt_of_mem x.2
  simp only [TreeNode.mk.sizeOf_spec]
  omega

/-- SudokuBoard.get_str_rep_of_board (lines 149-150): the 9 line digit
string of a grid. -/
def get_str_rep_of_board (g : Grid) : String :=
  String.intercalate "\n" (g.map (fun row => String.join (row.map toString)))

/-- The class attribute SudokuTreeNode.solved_boards (line 261) is created
empty once, when the class definition is executed at import time. -/
def solved_boards_class_init : List Grid := []

/-- The per instance state SudokuSolverApplication.__init__ (lines
321-325) creates: the root board built from the input text, the root node
at depth 0 wired to it, and time = 0. -/
structure SudokuSolverApplicationState where
  input_board : Grid
  root_depth : Nat
  time : Nat
deriving DecidableEq, Repr

/-- SudokuSolverApplication.__init__ (lines 321-325): builds the root
board and node and zeroes the timer.  It does not touch the class level
solved_boards list, which is returned unchanged alongside the new
instance. -/
def SudokuSolverApplication_init (inpt_board : Grid) (solved_boards : List Grid) :
    SudokuSolverApplicationState × List Grid :=
  ({ input_board := inpt_board, root_depth := 0, time := 0 }, solved_boards)

/-- SudokuSolverApplication.print_solutions (lines 335-351), modelled as
the list of payloads of the print calls in order.  The first print is
given two arguments, which print joins with one space; each solved board
is printed with one explicit extra newline after its nine lines; the
elapsed seconds value is abstracted as the string Python would
interpolate (its numeric value is wall clock time and is not modelled). -/
def print_solutions (solved_boards : List Grid) (root : TreeNode) (elapsed : String) : List String :=
  ("There " ++ (if solved_boards.length = 1 then "is" else "are") ++ " " ++
      toString solved_boards.length ++ " " ++
      ("solution" ++ (if solved_boards.length = 1 then "" else "s") ++
        (if solved_boards.length = 0 then "" else ":")))
  :: (solved_boards.map (fun board => get_str_rep_of_board board ++ "\n")
  ++ [if solved_boards.length = 1 then
        "A total of " ++ toString (find_total_nodes root - 1) ++ " guesses were made"
      else
        "There were a total of " ++ toString (find_total_nodes root) ++ " nodes in the tree",
      "It took " ++ elapsed ++ " seconds to finish"])

/-- What the scan of pruneGo computes on the original child list: a
removed NO_SOLUTIONS element causes its immediate successor to be skipped
(retained without being examined); every other element is examined, and
examined elements are removed exactly when their state is NO_SOLUTIONS. -/
def pruneSpec : List TreeNode → List TreeNode
  | [] => []
  | [x] => if x.state = SudokuTreeNodeState.NO_SOLUTIONS then [] else [x]
  | x :: y :: rest =>
    if x.state = SudokuTreeNodeState.NO_SOLUTIONS then y :: pruneSpec rest
    else x :: pruneSpec (y :: rest)

/-- Spec side restatement of solve_this_cell, written from the words of
the specification: if the cell is already assigned, ALREADY_FILLED with
no effect; otherwise possible_numbers is the intersection of the three
owning groups valid_numbers bounded to 1..9 (held as a Finset, listed in
ascending order); exactly one candidate assigns it and signals ONE_VALUE,
zero candidates signal ZERO_VALUES, two or more signal MULTIPLE_VALUES
with the cell left unassigned. -/
def spec_solve_this_cell (s : BoardRep) (r c : Nat) : SudokuCellReturnValues × List Nat × Grid :=
  if cellAt s.board r c ≠ 0 then
    (.ALREADY_FILLED, [], s.board)
  else
    let P : Finset Nat :=
      Finset.Icc 1 9 ∩
        ((s.rowsValid.getD r []).toFinset ∩
          ((s.colsValid.getD c []).toFinset ∩ (s.boxesValid.getD (boxIndex r c) []).toFinset))
    let possList := P.sort (fun a b => a ≤ b)
    if P.card = 1 then (.ONE_VALUE, possList, setCell s.board r c (possList.headD 0))
    else if P.card = 0 then (.ZERO_VALUES, possList, s.board)
    else (.MULTIPLE_VALUES, possList, s.board)

/-- Number of blank cells of a grid. -/
def countZeros (g : Grid) : Nat := (g.map (fun row => row.count 0)).sum

/-- Spec side restatement of the summary line of print_solutions, with
the three cases of the claim spelled out: singular with colon for one
solution, plural with colon for two or more, plural with no trailing
colon for none. -/
def spec_summary_line (n : Nat) : String :=
  if n = 0 then "There are 0 solutions"
  else if n = 1 then "There is 1 solution:"
  else "There are " ++ toString n ++ " solutions:"

/-- Spec side restatement of the statistics line of print_solutions: the
guess count phrasing when exactly one solution was found, the node count
phrasing otherwise. -/
def spec_stats_line (root : TreeNode) (n : Nat) : String :=
  if n = 1 then "A total of " ++ toString (find_total_nodes root - 1) ++ " guesses were made"
  else "There were a total of " ++ toString (find_total_nodes root) ++ " nodes in the tree"

/-- The shape of a 9x9 grid. -/
def Dims (g : Grid) : Prop := g.length = 9 ∧ ∀ row ∈ g, row.length = 9

/-- Every entry of the grid is a single digit (0 meaning blank). -/
def EntriesAtMost9 (g : Grid) : Prop := ∀ row ∈ g, ∀ x ∈ row, x ≤ 9

/-- No nonzero digit appears twice in the member list of a group. -/
def DupFree (l : List Nat) : Prop := ∀ d ∈ l, 1 ≤ d → l.count d ≤ 1

/-- The givens of the grid respect the Sudoku constraint: no row, column
or box repeats a nonzero digit. -/
def ValidGivens (g : Grid) : Prop :=
  ∀ i, i < 9 →
    DupFree (rowNumbers g i) ∧ DupFree (colNumbers g i) ∧ DupFree (boxNumbers g i)

/-- A group of a completed grid: each digit 1..9 appears exactly once. -/
def SolvedGroup (l : List Nat) : Prop := ∀ d, d < 10 → 1 ≤ d → l.count d = 1

/-- A correctly solved grid: 9x9, only digits 1..9, and every row, column
and box holds each digit exactly once. -/
def SolvedGrid (g : Grid) : Prop :=
  Dims g ∧ (∀ row ∈ g, ∀ x ∈ row, 1 ≤ x ∧ x ≤ 9) ∧
  ∀ i, i < 9 →
    SolvedGroup (rowNumbers g i) ∧ SolvedGroup (colNumbers g i) ∧ SolvedGroup (boxNumbers g i)

/-- The digits 1..9 not yet used by the given member numbers: what a
group valid_numbers set holds on a well formed live board. -/
def complNums (ns : List Nat) : List Nat :=
  (List.range' 1 9).filter (fun n => decide (n ∉ ns))

/-- The candidate digits of a cell read off the grid alone: digits 1..9
absent from the cell row, column and box. -/
def candidatesOf (g : Grid) (r c : Nat) : List Nat :=
  (List.range' 1 9).filter (fun n =>
    decide (n ∉ rowNumbers g r) && decide (n ∉ colNumbers g c) &&
      decide (n ∉ boxNumbers g (boxIndex r c)))

/-- The invariant of a live board: 9x9 single digit grid, duplicate free
groups, and each group valid_numbers equal to the unused digits of the
group. -/
def InvRep (s : BoardRep) : Prop :=
  Dims s.board ∧ EntriesAtMost9 s.board ∧ ValidGivens s.board ∧
  s.rowsValid.length = 9 ∧ s.colsValid.length = 9 ∧ s.boxesValid.length = 9 ∧
  ∀ i, i < 9 →
    s.rowsValid.getD i [] = complNums (rowNumbers s.board i) ∧
    s.colsValid.getD i [] = complNums (colNumbers s.board i) ∧
    s.boxesValid.getD i [] = complNums (boxNumbers s.board i)

/-!
Theorems.  First the defining equations of the two functions compiled by
well founded recursion over the nested tree type, then helper lemmas, then
one theorem per claim (with witnesses and counterexamples).
-/

theorem find_total_nodes_mk (st : SudokuTreeNodeState) (ch : List TreeNode) (d : Nat) :
    find_total_nodes (.mk st ch d) = if ch.isEmpty then 1 else (ch.map find_total_nodes).sum + 1 := by
  rw [find_total_nodes]
  rw [List.attach_map_val ch find_total_nodes]

theorem collect_nodes_mk (st : SudokuTreeNodeState) (ch : List TreeNode) (d : Nat) :
    collect_nodes (.mk st ch d) = .mk st ch d :: (ch.map collect_nodes).flatten := by
  rw [collect_nodes]
  rw [List.attach_map_val ch collect_nodes]

/-- C1: the claim states that solve_child_boards, once all children of a
branched node are solved, sets the node state to SOLVED when at least one
child node ends in state SOLVED.  On puzzleTwoSolutions the root branches
and both of its children end SOLVED (two solved grids are registered),
yet the root is set to NO_SOLUTIONS: line 286 compares the child node
object itself to the enum member SudokuTreeNodeState.SOLVED, a test that
is always false, instead of comparing the child state field as line 290
does, so the SOLVED half of the aggregation can never fire. -/
theorem solved_children_ignored_by_aggregation :
    (solve_tree_node 90 puzzleTwoSolutions 0 []).1.child_nodes.map TreeNode.state
        = [.SOLVED, .SOLVED] ∧
    (solve_tree_node 90 puzzleTwoSolutions 0 []).1.state = .NO_SOLUTIONS ∧
    (solve_tree_node 90 puzzleTwoSolutions 0 []).2.length = 2 :=
  ⟨rfl, rfl, rfl⟩

/-- C2, counterexample: after the full solve of puzzleFourSolutions (a
puzzle with four solutions, all of which are found), the root still holds
an attached child whose state is NO_SOLUTIONS, so it is false that every
child with final state NO_SOLUTIONS has been detached by the time
solve_child_boards returns: both root children end NO_SOLUTIONS (through
the line 286 defect), the pruning loop of lines 289-291 removes the first
one, and the removal slides the second child into the loop position that
the for statement has already passed, so it is never examined. -/
theorem no_solutions_child_left_attached :
    (solve_tree_node 90 puzzleFourSolutions 0 []).1.child_nodes.map TreeNode.state
        = [.NO_SOLUTIONS] ∧
    (solve_tree_node 90 puzzleFourSolutions 0 []).2.length = 4 :=
  ⟨rfl, rfl⟩

/-- C3, counterexample: the claim states that when an iteration reports
ZERO_VALUES, solve_board releases the internal representation (cell grid
and group lists cleared) before returning NO_SOLUTIONS.  On
puzzleContradiction the solve returns NO_SOLUTIONS without creating
children, but the early return on lines 236-237 skips
del_internal_representation: the cell grid still holds its 9 rows and the
row group list its 9 entries. -/
theorem no_solutions_path_keeps_internal_representation :
    (solve_board 90 puzzleContradiction 0 []).outcome = .NO_SOLUTIONS ∧
    (solve_board 90 puzzleContradiction 0 []).rep.board.length = 9 ∧
    (solve_board 90 puzzleContradiction 0 []).rep.rowsValid.length = 9 ∧
    (solve_board 90 puzzleContradiction 0 []).childSeeds = [] :=
  ⟨rfl, rfl, rfl, rfl⟩

/-- C4, counterexample: the claim states that constructing a new
SudokuSolverApplication starts with an empty Solution Registry.  But
solved_boards is a class attribute of SudokuTreeNode, created once at
class definition time; after one application has solved
puzzleTwoSolutions, constructing a second application leaves the registry
holding the two previously found solutions. -/
theorem second_application_starts_with_nonempty_registry :
    (SudokuSolverApplication_init puzzleTwoSolutions
        (solve_tree_node 90 puzzleTwoSolutions 0 solved_boards_class_init).2).2.length = 2 :=
  rfl

/-- C5, counterexample: the claim states that every grid appended to the
Solution Registry has every digit exactly once in every row.  Feeding the
solver the all nines grid (no blank cell, so solve_board appends it as it
stands) puts a grid in the registry whose first row contains the digit 9
nine times. -/
theorem registry_accepts_invalid_grid :
    (solve_tree_node 90 allNines 0 []).2 = [allNines] ∧
    (rowNumbers allNines 0).count 9 = 9 :=
  ⟨rfl, rfl⟩

/-- When the scan index has reached the end of the list, pruneGo returns
the list unchanged, whatever budget is left. -/
theorem pruneGo_done (steps : Nat) (k : Nat) (l : List TreeNode) (h : l.length ≤ k) :
    pruneGo steps k l = l := by
  cases steps with
  | zero => rfl
  | succ s =>
    unfold pruneGo
    rw [dif_neg]
    omega

/-- Reading the element at the split point of an append. -/
theorem get_append_cons (done : List TreeNode) (x : TreeNode) (rest : List TreeNode)
    (h : done.length < (done ++ x :: rest).length) :
    (done ++ x :: rest).get ⟨done.length, h⟩ = x := by
  induction done with
  | nil => rfl
  | cons d ds ih =>
    simp only [List.cons_append, List.length_cons, List.get_cons_succ]
    exact ih _

/-- Removing the element at the split point of an append. -/
theorem eraseIdx_append_cons (done : List TreeNode) (x : TreeNode) (rest : List TreeNode) :
    (done ++ x :: rest).eraseIdx done.length = done ++ rest := by
  induction done with
  | nil => rfl
  | cons d ds ih =>
    simp only [List.cons_append, List.length_cons, List.eraseIdx_cons_succ]
    rw [ih]

/-- The scan of pruneGo started at the boundary between an already scanned
prefix and the remaining suffix leaves the prefix alone and rewrites the
suffix to pruneSpec of it, provided the step budget covers the suffix. -/
theorem pruneGo_append :
    ∀ (todo : List TreeNode) (steps : Nat) (done : List TreeNode), todo.length ≤ steps →
      pruneGo steps done.length (done ++ todo) = done ++ pruneSpec todo
  | [], steps, done, _ => by
    rw [List.append_nil, pruneSpec, List.append_nil]
    exact pruneGo_done steps done.length done (Nat.le_refl _)
  | [x], steps, done, h => by
    match steps, h with
    | steps + 1, _ =>
      unfold pruneGo
      rw [dif_pos (by simp)]
      rw [get_append_cons]
      by_cases hx : x.state = SudokuTreeNodeState.NO_SOLUTIONS
      · rw [if_pos hx, eraseIdx_append_cons,
          pruneGo_done _ _ _ (by simp), pruneSpec, if_pos hx, List.append_nil]
      · rw [if_neg hx, pruneGo_done _ _ _ (by simp), pruneSpec, if_neg hx]
  | x :: y :: rest, steps, done, h => by
    match steps, h with
    | steps + 1, h =>
      unfold pruneGo
      rw [dif_pos (by simp)]
      rw [get_append_cons]
      by_cases hx : x.state = SudokuTreeNodeState.NO_SOLUTIONS
      · rw [if_pos hx, eraseIdx_append_cons]
        have hy : done ++ y :: rest = (done ++ [y]) ++ rest := by simp
        have hk : done.length + 1 = (done ++ [y]).length := by simp
        rw [hy, hk, pruneGo_append rest steps (done ++ [y]) (by simp at h; omega)]
        simp [pruneSpec, if_pos hx]
      · have hk : done.length + 1 = (done ++ [x]).length := by simp
        have hy : done ++ x :: y :: rest = (done ++ [x]) ++ y :: rest := by simp
        rw [if_neg hx, hy, hk, pruneGo_append (y :: rest) steps (done ++ [x]) (by simp at h ⊢; omega)]
        simp [pruneSpec, if_neg hx]

/-- The pruning pass of solve_child_boards computes pruneSpec. -/
theorem prune_no_solution_children_eq (l : List TreeNode) :
    prune_no_solution_children l = pruneSpec l := by
  have h := pruneGo_append l l.length [] (Nat.le_refl _)
  simpa [prune_no_solution_children] using h

/-- Elements of pruneSpec of a list in which no two consecutive elements
are both NO_SOLUTIONS are never NO_SOLUTIONS. -/
theorem pruneSpec_no_adjacent :
    ∀ (l : List TreeNode),
      List.Chain' (fun a b => a.state ≠ SudokuTreeNodeState.NO_SOLUTIONS ∨
        b.state ≠ SudokuTreeNodeState.NO_SOLUTIONS) l →
      ∀ n ∈ pruneSpec l, n.state ≠ SudokuTreeNodeState.NO_SOLUTIONS
  | [], _, n, hn => by simp [pruneSpec] at hn
  | [x], h, n, hn => by
    by_cases hx : x.state = SudokuTreeNodeState.NO_SOLUTIONS
    · simp [pruneSpec, if_pos hx] at hn
    · simp [pruneSpec, if_neg hx] at hn
      rw [hn]
      exact hx
  | x :: y :: rest, h, n, hn => by
    have hxy := List.chain'_cons.mp h
    by_cases hx : x.state = SudokuTreeNodeState.NO_SOLUTIONS
    · rw [pruneSpec, if_pos hx] at hn
      rcases List.mem_cons.mp hn with hny | hnrest
      · rw [hny]
        rcases hxy.1 with hc | hc
        · exact absurd hx hc
        · exact hc
      · exact pruneSpec_no_adjacent rest (List.Chain'.tail hxy.2) n hnrest
    · rw [pruneSpec, if_neg hx] at hn
      rcases List.mem_cons.mp hn with hnx | hnrest
      · rw [hnx]
        exact hx
      · exact pruneSpec_no_adjacent (y :: rest) hxy.2 n hnrest

/-- C2, amended: the pruning pass of solve_child_boards detaches a
NO_SOLUTIONS child only when that child does not immediately follow
another NO_SOLUTIONS child (removal during iteration makes the loop skip
the element that slides into the freed slot); in particular, whenever no
two consecutive children end NO_SOLUTIONS, every NO_SOLUTIONS child is
detached by the time solve_child_boards returns. -/
theorem pruning_detaches_nonadjacent_no_solutions (l : List TreeNode)
    (h : List.Chain' (fun a b => a.state ≠ SudokuTreeNodeState.NO_SOLUTIONS ∨
      b.state ≠ SudokuTreeNodeState.NO_SOLUTIONS) l) :
    ∀ n ∈ prune_no_solution_children l, n.state ≠ SudokuTreeNodeState.NO_SOLUTIONS := by
  rw [prune_no_solution_children_eq]
  exact pruneSpec_no_adjacent l h

/-- Witness for the C2 theorem on the concrete child list holding a
NO_SOLUTIONS leaf followed by a SOLVED leaf. -/
theorem pruning_detaches_nonadjacent_no_solutions_witness :
    List.Chain' (fun a b => a.state ≠ SudokuTreeNodeState.NO_SOLUTIONS ∨
      b.state ≠ SudokuTreeNodeState.NO_SOLUTIONS)
      [TreeNode.mk .NO_SOLUTIONS [] 1, TreeNode.mk .SOLVED [] 1] ∧
    ∀ n ∈ prune_no_solution_children
      [TreeNode.mk .NO_SOLUTIONS [] 1, TreeNode.mk .SOLVED [] 1],
      n.state ≠ SudokuTreeNodeState.NO_SOLUTIONS :=
  ⟨by simp [List.chain'_cons, TreeNode.state], pruning_detaches_nonadjacent_no_solutions _ (by simp [List.chain'_cons, TreeNode.state])⟩

/-- solve_this_cell never changes the number of rows of the grid. -/
theorem solve_this_cell_board_length (s : BoardRep) (r c : Nat) :
    (solve_this_cell s r c).2.2.length = s.board.length := by
  unfold solve_this_cell
  split
  · rfl
  · dsimp only
    split
    · simp [setCell]
    · split
      · rfl
      · rfl

/-- One iteration never changes the number of rows of the grid. -/
theorem iterCells_board_length :
    ∀ (ps : List (Nat × Nat)) (s : BoardRep) (chg : Bool),
      (iterCells ps s chg).2.board.length = s.board.length
  | [], _, _ => rfl
  | (r, c) :: ps, s, chg => by
    have hcell := solve_this_cell_board_length s r c
    unfold iterCells
    match hres : solve_this_cell s r c with
    | (.ALREADY_FILLED, poss, g) => exact iterCells_board_length ps s chg
    | (.ZERO_VALUES, poss, g) => rfl
    | (.ONE_VALUE, poss, g) =>
      rw [iterCells_board_length ps _ true]
      rw [hres] at hcell
      exact hcell
    | (.MULTIPLE_VALUES, poss, g) => exact iterCells_board_length ps _ chg

/-- The elimination while loop never changes the number of rows of the
grid. -/
theorem solveLoop_board_length :
    ∀ (fuel : Nat) (s : BoardRep), (solveLoop fuel s).2.board.length = s.board.length
  | 0, _ => rfl
  | fuel + 1, s => by
    have hiter := iterCells_board_length allPositions { s with multi := [] } false
    unfold solveLoop
    match hres : do_one_iteration s with
    | (.zero, s1) =>
      rw [do_one_iteration] at hres
      rw [hres] at hiter
      exact hiter
    | (.changed true, s1) =>
      rw [solveLoop_board_length fuel s1]
      rw [do_one_iteration] at hres
      rw [hres] at hiter
      exact hiter
    | (.changed false, s1) =>
      rw [do_one_iteration] at hres
      rw [hres] at hiter
      exact hiter

/-- Case equation of solve_board: the loop ran out of fuel. -/
theorem solve_board_eq_fuelOut (fuel : Nat) (input : Grid) (depth : Nat) (registry : List Grid)
    (s : BoardRep)
    (hres : solveLoop fuel (initial_eliminate (setup_internal_representation input)) = (.fuelOut, s)) :
    solve_board fuel input depth registry =
      { outcome := .OUT_OF_FUEL, rep := s, registry := registry, childSeeds := [] } := by
  unfold solve_board
  rw [hres]

/-- Case equation of solve_board: a round reported ZERO_VALUES. -/
theorem solve_board_eq_contradiction (fuel : Nat) (input : Grid) (depth : Nat)
    (registry : List Grid) (s : BoardRep)
    (hres : solveLoop fuel (initial_eliminate (setup_internal_representation input)) = (.contradiction, s)) :
    solve_board fuel input depth registry =
      { outcome := .NO_SOLUTIONS, rep := s, registry := registry, childSeeds := [] } := by
  unfold solve_board
  rw [hres]

/-- Case equation of solve_board: the loop stalled on a complete grid. -/
theorem solve_board_eq_solved (fuel : Nat) (input : Grid) (depth : Nat) (registry : List Grid)
    (s : BoardRep)
    (hres : solveLoop fuel (initial_eliminate (setup_internal_representation input)) = (.stalled, s))
    (hz : noZero s.board = true) :
    solve_board fuel input depth registry =
      { outcome := .SOLVED, rep := del_internal_representation s,
        registry := registry ++ [s.board], childSeeds := [] } := by
  unfold solve_board
  rw [hres]
  dsimp only
  exact if_pos hz

/-- Case equation of solve_board: the loop stalled on an incomplete grid
with an empty multi_possibility_cells list (the assert of line 246
fires). -/
theorem solve_board_eq_assert (fuel : Nat) (input : Grid) (depth : Nat) (registry : List Grid)
    (s : BoardRep)
    (hres : solveLoop fuel (initial_eliminate (setup_internal_representation input)) = (.stalled, s))
    (hz : ¬ noZero s.board = true) (hm : s.multi.isEmpty = true) :
    solve_board fuel input depth registry =
      { outcome := .ASSERT_FAIL, rep := s, registry := registry, childSeeds := [] } := by
  unfold solve_board
  rw [hres]
  dsimp only
  rw [if_neg hz]
  exact if_pos hm

/-- Case equation of solve_board: the loop stalled on an incomplete grid
and the board branches. -/
theorem solve_board_eq_branch (fuel : Nat) (input : Grid) (depth : Nat) (registry : List Grid)
    (s : BoardRep)
    (hres : solveLoop fuel (initial_eliminate (setup_internal_representation input)) = (.stalled, s))
    (hz : ¬ noZero s.board = true) (hm : ¬ s.multi.isEmpty = true) :
    solve_board fuel input depth registry =
      { outcome := .UNKNOWN, rep := del_internal_representation s,
        registry := registry, childSeeds := establish_child_tree_nodes s depth } := by
  unfold solve_board
  rw [hres]
  dsimp only
  rw [if_neg hz]
  exact if_neg hm

/-- C3, amended: whenever an iteration inside solve_board reports
ZERO_VALUES, solve_board returns NO_SOLUTIONS without creating any child
tree nodes and without touching the registry, but it does not release the
internal representation on this path: the cell grid still has as many
rows as the input grid (del_internal_representation would leave zero). -/
theorem no_solutions_returns_without_branching (fuel : Nat) (input : Grid) (depth : Nat)
    (registry : List Grid)
    (h : (solve_board fuel input depth registry).outcome = .NO_SOLUTIONS) :
    (solve_board fuel input depth registry).childSeeds = [] ∧
    (solve_board fuel input depth registry).registry = registry ∧
    (solve_board fuel input depth registry).rep.board.length = input.length := by
  have hlen := solveLoop_board_length fuel (initial_eliminate (setup_internal_representation input))
  match hres : solveLoop fuel (initial_eliminate (setup_internal_representation input)) with
  | (.fuelOut, s) =>
    rw [solve_board_eq_fuelOut fuel input depth registry s hres] at h
    simp at h
  | (.contradiction, s) =>
    rw [solve_board_eq_contradiction fuel input depth registry s hres] at h ⊢
    rw [hres] at hlen
    exact ⟨rfl, rfl, hlen⟩
  | (.stalled, s) =>
    by_cases hz : noZero s.board = true
    · rw [solve_board_eq_solved fuel input depth registry s hres hz] at h
      simp at h
    · by_cases hm : s.multi.isEmpty = true
      · rw [solve_board_eq_assert fuel input depth registry s hres hz hm] at h
        simp at h
      · rw [solve_board_eq_branch fuel input depth registry s hres hz hm] at h
        simp at h

/-- Witness for the C3 theorem at the concrete contradictory grid. -/
theorem no_solutions_returns_without_branching_witness :
    (solve_board 90 puzzleContradiction 0 []).outcome = .NO_SOLUTIONS ∧
    ((solve_board 90 puzzleContradiction 0 []).childSeeds = [] ∧
      (solve_board 90 puzzleContradiction 0 []).registry = [] ∧
      (solve_board 90 puzzleContradiction 0 []).rep.board.length = puzzleContradiction.length) :=
  ⟨rfl, no_solutions_returns_without_branching 90 puzzleContradiction 0 [] rfl⟩

/-- One call to solve_board only ever appends to the registry, and the
only grid it appends is a fully assigned one. -/
theorem solve_board_registry_extends (fuel : Nat) (input : Grid) (depth : Nat)
    (registry : List Grid) :
    ∃ extra, (solve_board fuel input depth registry).registry = registry ++ extra ∧
      ∀ b ∈ extra, noZero b = true := by
  match hres : solveLoop fuel (initial_eliminate (setup_internal_representation input)) with
  | (.fuelOut, s) =>
    rw [solve_board_eq_fuelOut fuel input depth registry s hres]
    exact ⟨[], by simp, by simp⟩
  | (.contradiction, s) =>
    rw [solve_board_eq_contradiction fuel input depth registry s hres]
    exact ⟨[], by simp, by simp⟩
  | (.stalled, s) =>
    by_cases hz : noZero s.board = true
    · rw [solve_board_eq_solved fuel input depth registry s hres hz]
      refine ⟨[s.board], rfl, ?_⟩
      intro b hb
      rw [List.mem_singleton.mp hb]
      exact hz
    · by_cases hm : s.multi.isEmpty = true
      · rw [solve_board_eq_assert fuel input depth registry s hres hz hm]
        exact ⟨[], by simp, by simp⟩
      · rw [solve_board_eq_branch fuel input depth registry s hres hz hm]
        exact ⟨[], by simp, by simp⟩

/-- If the single node solver only appends fully assigned grids to the
registry, then so does the sequential child recursion. -/
theorem solve_children_registry_extends
    (f : Grid → Nat → List Grid → TreeNode × List Grid)
    (hf : ∀ g d r, ∃ extra, (f g d r).2 = r ++ extra ∧ ∀ b ∈ extra, noZero b = true) :
    ∀ (seeds : List ChildSeed) (registry : List Grid),
      ∃ extra, (solve_children f seeds registry).2 = registry ++ extra ∧
        ∀ b ∈ extra, noZero b = true
  | [], registry => ⟨[], by simp [solve_children], by simp⟩
  | seed :: rest, registry => by
    obtain ⟨e1, he1, he1z⟩ := hf seed.grid seed.depth registry
    unfold solve_children
    match hn : f seed.grid seed.depth registry with
    | (node, registry1) =>
      rw [hn] at he1
      dsimp only at he1
      obtain ⟨e2, he2, he2z⟩ := solve_children_registry_extends f hf rest registry1
      refine ⟨e1 ++ e2, ?_, ?_⟩
      · show (solve_children f rest registry1).2 = registry ++ (e1 ++ e2)
        rw [he2, he1, List.append_assoc]
      · intro b hb
        rcases List.mem_append.mp hb with h1 | h2
        · exact he1z b h1
        · exact he2z b h2

/-- C4, amended: the Solution Registry is the class level list
SudokuTreeNode.solved_boards, created empty once per process when the
class definition runs, and not reset by constructing a
SudokuSolverApplication; during a run it is append only, every appended
entry being the text of a board that reached a fully assigned state
(no 0 left), and it is never cleared or otherwise mutated: whatever the
registry held before a solve is still its prefix afterwards. -/
theorem registry_append_only :
    ∀ (fuel : Nat) (grid : Grid) (depth : Nat) (registry : List Grid),
      ∃ extra, (solve_tree_node fuel grid depth registry).2 = registry ++ extra ∧
        ∀ b ∈ extra, noZero b = true
  | 0, grid, depth, registry => ⟨[], by simp [solve_tree_node], by simp⟩
  | fuel + 1, grid, depth, registry => by
    obtain ⟨e1, he1, he1z⟩ := solve_board_registry_extends (fuel + 1) grid depth registry
    unfold solve_tree_node
    match hb : solve_board (fuel + 1) grid depth registry with
    | { outcome := o, rep := rep, registry := reg1, childSeeds := seeds } =>
      rw [hb] at he1
      dsimp only at he1
      cases o with
      | SOLVED => exact ⟨e1, he1, he1z⟩
      | NO_SOLUTIONS => exact ⟨e1, he1, he1z⟩
      | OUT_OF_FUEL => exact ⟨e1, he1, he1z⟩
      | ASSERT_FAIL => exact ⟨e1, he1, he1z⟩
      | UNKNOWN =>
        obtain ⟨e2, he2, he2z⟩ :=
          solve_children_registry_extends (solve_tree_node fuel)
            (fun g d r => registry_append_only fuel g d r) seeds reg1
        refine ⟨e1 ++ e2, ?_, ?_⟩
        · show (solve_children (solve_tree_node fuel) seeds reg1).2 = registry ++ (e1 ++ e2)
          rw [he2, he1, List.append_assoc]
        · intro b hbm
          rcases List.mem_append.mp hbm with h1 | h2
          · exact he1z b h1
          · exact he2z b h2

/-- Characterization of the selection fold of establish_child_tree_nodes:
starting from any accumulator, the fold either keeps the accumulator
(when no entry beats its count) or returns the first entry whose
possible_numbers count is strictly below the running minimum, which is
exactly the first entry attaining the overall minimum count. -/
theorem select_fold_characterize :
    ∀ (l : List (Nat × Nat × List Nat)) (acc : Nat × (Int × Int) × List Nat),
      (l.foldl
          (fun acc cell =>
            if cell.2.2.length < acc.1 then
              (cell.2.2.length, ((cell.1 : Int), (cell.2.1 : Int)), cell.2.2)
            else acc) acc = acc ∧
        ∀ e ∈ l, acc.1 ≤ e.2.2.length) ∨
      (∃ k, ∃ hk : k < l.length,
        l.foldl
          (fun acc cell =>
            if cell.2.2.length < acc.1 then
              (cell.2.2.length, ((cell.1 : Int), (cell.2.1 : Int)), cell.2.2)
            else acc) acc =
          ((l.get ⟨k, hk⟩).2.2.length,
            (((l.get ⟨k, hk⟩).1 : Int), ((l.get ⟨k, hk⟩).2.1 : Int)), (l.get ⟨k, hk⟩).2.2) ∧
        (l.get ⟨k, hk⟩).2.2.length < acc.1 ∧
        (∀ j, ∀ hj : j < l.length, (l.get ⟨k, hk⟩).2.2.length ≤ (l.get ⟨j, hj⟩).2.2.length) ∧
        (∀ j, ∀ hj : j < k, (l.get ⟨k, hk⟩).2.2.length < (l.get ⟨j, Nat.lt_trans hj hk⟩).2.2.length))
  | [], acc => Or.inl ⟨rfl, by simp⟩
  | e :: l, acc => by
    by_cases he : e.2.2.length < acc.1
    · rw [List.foldl_cons, if_pos he]
      rcases select_fold_characterize l (e.2.2.length, ((e.1 : Int), (e.2.1 : Int)), e.2.2) with
        ⟨hfold, hall⟩ | ⟨k, hk, hfold, hlt, hmin, hfirst⟩
      · refine Or.inr ⟨0, by simp, hfold, he, ?_, ?_⟩
        · intro j hj
          cases j with
          | zero => exact Nat.le_refl _
          | succ j => exact hall _ (l.get_mem _ _)
        · intro j hj
          exact absurd hj (Nat.not_lt_zero j)
      · refine Or.inr ⟨k + 1, by simpa using hk, hfold, Nat.lt_trans hlt he, ?_, ?_⟩
        · intro j hj
          cases j with
          | zero => exact Nat.le_of_lt hlt
          | succ j => exact hmin j (by simpa using hj)
        · intro j hj
          cases j with
          | zero => exact hlt
          | succ j => exact hfirst j (by simpa using hj)
    · rw [List.foldl_cons, if_neg he]
      rcases select_fold_characterize l acc with
        ⟨hfold, hall⟩ | ⟨k, hk, hfold, hlt, hmin, hfirst⟩
      · refine Or.inl ⟨hfold, ?_⟩
        intro x hx
        rcases List.mem_cons.mp hx with hx | hx
        · rw [hx]
          exact Nat.le_of_not_lt he
        · exact hall x hx
      · refine Or.inr ⟨k + 1, by simpa using hk, hfold, hlt, ?_, ?_⟩
        · intro j hj
          cases j with
          | zero => exact Nat.le_of_lt (Nat.lt_of_lt_of_le hlt (Nat.le_of_not_lt he))
          | succ j => exact hmin j (by simpa using hj)
        · intro j hj
          cases j with
          | zero => exact Nat.lt_of_lt_of_le hlt (Nat.le_of_not_lt he)
          | succ j => exact hfirst j (by simpa using hj)

/-- C6: establish_child_tree_nodes picks, among the recorded stall
candidate cells, the cell with the strictly fewest candidates, keeping
the first cell encountered on ties (the multi list is filled in row major
scan order, and the fold keeps an entry only on a strictly smaller
count); for each candidate value of that cell it produces exactly one
child seed at depth parent + 1 whose grid is the parent grid with the
value substituted at the chosen position.  The count bound below holds on
every real run because possible_numbers is a subset of 1..9, and it is
what keeps the line 201 sentinel count 10 from surviving the scan. -/
theorem branch_selection_picks_first_minimum (s : BoardRep) (depth : Nat)
    (hne : s.multi ≠ [])
    (hb : ∀ e ∈ s.multi, e.2.2.length < 10) :
    ∃ k, ∃ hk : k < s.multi.length,
      (∀ j, ∀ hj : j < s.multi.length,
        (s.multi.get ⟨k, hk⟩).2.2.length ≤ (s.multi.get ⟨j, hj⟩).2.2.length) ∧
      (∀ j, ∀ hj : j < k,
        (s.multi.get ⟨k, hk⟩).2.2.length < (s.multi.get ⟨j, Nat.lt_trans hj hk⟩).2.2.length) ∧
      establish_child_tree_nodes s depth =
        (s.multi.get ⟨k, hk⟩).2.2.map (fun possibility =>
          { grid := setCell s.board (s.multi.get ⟨k, hk⟩).1 (s.multi.get ⟨k, hk⟩).2.1 possibility
            depth := depth + 1 }) := by
  rcases select_fold_characterize s.multi (10, (-1, -1), []) with
    ⟨_, hall⟩ | ⟨k, hk, hfold, _, hmin, hfirst⟩
  · rcases List.exists_mem_of_ne_nil s.multi hne with ⟨e, he⟩
    exact absurd (hall e he) (Nat.not_le_of_lt (hb e he))
  · refine ⟨k, hk, hmin, hfirst, ?_⟩
    unfold establish_child_tree_nodes select_branch_cell
    rw [hfold]
    simp

/-- Witness for the C6 theorem: a representation whose multi list records
the cell (0,0) with two candidates and then the cell (0,1) with one
candidate; the fold must pick the second entry. -/
theorem branch_selection_picks_first_minimum_witness :
    (([((0 : Nat), (0 : Nat), [(1 : Nat), 2]), (0, 1, [3])] : List (Nat × Nat × List Nat)) ≠ [] ∧
      ∀ e ∈ ([(0, 0, [1, 2]), (0, 1, [3])] : List (Nat × Nat × List Nat)), e.2.2.length < 10) ∧
    (∃ k, ∃ hk : k < (BoardRep.mk [[5]] [] [] [] [(0, 0, [1, 2]), (0, 1, [3])]).multi.length,
      (∀ j, ∀ hj : j < (BoardRep.mk [[5]] [] [] [] [(0, 0, [1, 2]), (0, 1, [3])]).multi.length,
        ((BoardRep.mk [[5]] [] [] [] [(0, 0, [1, 2]), (0, 1, [3])]).multi.get ⟨k, hk⟩).2.2.length ≤
          ((BoardRep.mk [[5]] [] [] [] [(0, 0, [1, 2]), (0, 1, [3])]).multi.get ⟨j, hj⟩).2.2.length) ∧
      (∀ j, ∀ hj : j < k,
        ((BoardRep.mk [[5]] [] [] [] [(0, 0, [1, 2]), (0, 1, [3])]).multi.get ⟨k, hk⟩).2.2.length <
          ((BoardRep.mk [[5]] [] [] [] [(0, 0, [1, 2]), (0, 1, [3])]).multi.get
            ⟨j, Nat.lt_trans hj hk⟩).2.2.length) ∧
      establish_child_tree_nodes (BoardRep.mk [[5]] [] [] [] [(0, 0, [1, 2]), (0, 1, [3])]) 4 =
        ((BoardRep.mk [[5]] [] [] [] [(0, 0, [1, 2]), (0, 1, [3])]).multi.get ⟨k, hk⟩).2.2.map
          (fun possibility =>
            { grid := setCell (BoardRep.mk [[5]] [] [] [] [(0, 0, [1, 2]), (0, 1, [3])]).board
                ((BoardRep.mk [[5]] [] [] [] [(0, 0, [1, 2]), (0, 1, [3])]).multi.get ⟨k, hk⟩).1
                ((BoardRep.mk [[5]] [] [] [] [(0, 0, [1, 2]), (0, 1, [3])]).multi.get ⟨k, hk⟩).2.1
                possibility
              depth := 4 + 1 })) :=
  ⟨⟨by decide, by decide⟩,
    branch_selection_picks_first_minimum
      (BoardRep.mk [[5]] [] [] [] [(0, 0, [1, 2]), (0, 1, [3])]) 4 (by decide) (by decide)⟩

/-- The candidate list solve_this_cell computes is the ascending
enumeration of the bounded intersection Finset used by the spec side
definition. -/
theorem code_possible_eq_spec_sort (s : BoardRep) (r c : Nat) :
    possible_numbers_of s r c =
      (Finset.Icc 1 9 ∩
        ((s.rowsValid.getD r []).toFinset ∩
          ((s.colsValid.getD c []).toFinset ∩
            (s.boxesValid.getD (boxIndex r c) []).toFinset))).sort (fun a b => a ≤ b) := by
  unfold possible_numbers_of
  apply List.eq_of_perm_of_sorted (r := fun a b => a ≤ b)
  · apply List.perm_of_nodup_nodup_toFinset_eq
    · exact (List.nodup_range' 1 9).filter _
    · exact Finset.sort_nodup _ _
    · ext x
      simp only [List.mem_toFinset, List.mem_filter, List.mem_range'_1, Finset.mem_sort,
        Finset.mem_inter, Finset.mem_Icc, Bool.and_eq_true, decide_eq_true_eq]
      constructor
      · rintro ⟨⟨h1, h2⟩, ⟨ha, hb⟩, hc⟩
        exact ⟨⟨h1, by omega⟩, ha, hb, hc⟩
      · rintro ⟨⟨h1, h2⟩, ha, hb, hc⟩
        exact ⟨⟨h1, by omega⟩, ⟨ha, hb⟩, hc⟩
  · exact ((List.pairwise_lt_range' 1 9).filter _).imp (fun h => Nat.le_of_lt h)
  · exact Finset.sort_sorted _ _

/-- C8: solve_this_cell behaves exactly as specified: ALREADY_FILLED with
no effect on an assigned cell; otherwise possible_numbers is the
intersection of the three owning groups valid_numbers bounded to 1..9,
the unique candidate is assigned on ONE_VALUE, no candidate gives
ZERO_VALUES, and two or more give MULTIPLE_VALUES leaving the cell
unassigned (spec_solve_this_cell is the claim written out as a
function). -/
theorem solve_this_cell_follows_spec (s : BoardRep) (r c : Nat) :
    solve_this_cell s r c = spec_solve_this_cell s r c := by
  unfold solve_this_cell spec_solve_this_cell
  by_cases h : cellAt s.board r c ≠ 0
  · rw [if_pos h, if_pos h]
  · rw [if_neg h, if_neg h]
    dsimp only
    rw [code_possible_eq_spec_sort s r c]
    simp only [Finset.length_sort]

theorem getD_set_self (l : List (List Nat)) (i : Nat) (v : List Nat) (h : i < l.length) :
    (l.set i v).getD i [] = v := by
  rw [List.getD_eq_getElem?_getD, List.getElem?_set_self]
  · rfl
  · exact h

theorem getD_set_ne (l : List (List Nat)) (i j : Nat) (v : List Nat) (h : i ≠ j) :
    (l.set i v).getD j [] = l.getD j [] := by
  rw [List.getD_eq_getElem?_getD, List.getElem?_set_ne h, List.getD_eq_getElem?_getD]

theorem natGetD_set_self (l : List Nat) (i : Nat) (v : Nat) (h : i < l.length) :
    (l.set i v).getD i 0 = v := by
  rw [List.getD_eq_getElem?_getD, List.getElem?_set_self]
  · rfl
  · exact h

theorem natGetD_set_ne (l : List Nat) (i j : Nat) (v : Nat) (h : i ≠ j) :
    (l.set i v).getD j 0 = l.getD j 0 := by
  rw [List.getD_eq_getElem?_getD, List.getElem?_set_ne h, List.getD_eq_getElem?_getD]

/-- Cells other than the written one are untouched by setCell. -/
theorem cellAt_setCell_ne (g : Grid) (r c v r1 c1 : Nat) (h : (r1, c1) ≠ (r, c)) :
    cellAt (setCell g r c v) r1 c1 = cellAt g r1 c1 := by
  unfold cellAt setCell
  by_cases hr : r1 = r
  · subst hr
    have hc : c ≠ c1 := by
      intro hc
      exact h (by rw [hc])
    by_cases hlen : r1 < g.length
    · rw [getD_set_self g r1 _ hlen, natGetD_set_ne _ c c1 v hc]
    · rw [List.set_eq_of_length_le (Nat.le_of_not_lt hlen)]
  · rw [getD_set_ne g r r1 _ (fun e => hr e.symm)]

theorem getD_map_count (g : Grid) (r : Nat) (h : r < g.length) :
    (g.map (fun row => row.count 0)).getD r 0 = (g.getD r []).count 0 := by
  rw [List.getD_eq_getElem?_getD, List.getElem?_map, List.getD_eq_getElem?_getD,
    List.getElem?_eq_getElem h]
  rfl

/-- Replacing one entry of a list of naturals by a strictly smaller value
strictly decreases the sum. -/
theorem sum_set_lt :
    ∀ (l : List Nat) (i : Nat) (a : Nat), i < l.length → a < l.getD i 0 →
      (l.set i a).sum < l.sum
  | [], i, a, hi, _ => absurd hi (by simp)
  | x :: xs, 0, a, _, ha => by
    simp only [List.set_cons_zero, List.sum_cons]
    have : a < x := by simpa using ha
    omega
  | x :: xs, i + 1, a, hi, ha => by
    simp only [List.set_cons_succ, List.sum_cons]
    have := sum_set_lt xs i a (by simpa using hi) (by simpa using ha)
    omega

/-- Assigning a nonzero value to a blank in-range cell strictly decreases
the number of blanks. -/
theorem countZeros_setCell_lt (g : Grid) (r c v : Nat) (hr : r < g.length)
    (hc : c < (g.getD r []).length) (h0 : cellAt g r c = 0) (hv : v ≠ 0) :
    countZeros (setCell g r c v) < countZeros g := by
  unfold countZeros setCell
  rw [List.map_set]
  apply sum_set_lt _ _ _ (by simpa using hr)
  rw [getD_map_count g r hr]
  have hcount := List.count_set v 0 (g.getD r []) c hc
  have hmem : (0 : Nat) ∈ g.getD r [] := by
    have : (g.getD r [])[c] = 0 := by
      have := h0
      unfold cellAt at this
      rwa [List.getD_eq_getElem?_getD, List.getElem?_eq_getElem hc] at this
    rw [← this]
    exact List.getElem_mem hc
  have hpos : 0 < (g.getD r []).count 0 := List.count_pos_iff.mpr hmem
  have hcell : (g.getD r [])[c] = 0 := by
    have := h0
    unfold cellAt at this
    rwa [List.getD_eq_getElem?_getD, List.getElem?_eq_getElem hc] at this
  rw [hcell] at hcount
  simp only [beq_self_eq_true, if_pos] at hcount
  have hvz : (v == 0) = false := by
    simpa using hv
  rw [hvz] at hcount
  simp at hcount
  simp only [List.getD_eq_getElem?_getD] at hcount hpos ⊢
  omega

/-- Elements of the candidate list are digits 1..9. -/
theorem mem_candidate_list (s : BoardRep) (r c : Nat) (x : Nat)
    (hx : x ∈ possible_numbers_of s r c) :
    1 ≤ x ∧ x ≤ 9 := by
  have := (List.mem_filter.mp hx).1
  have := List.mem_range'_1.mp this
  omega

theorem headD_mem (l : List Nat) (h : l ≠ []) : l.headD 0 ∈ l := by
  cases l with
  | nil => exact absurd rfl h
  | cons x xs => exact List.mem_cons_self x xs

/-- Inversion of solve_this_cell on the ONE_VALUE outcome: the cell was
blank, exactly one candidate remained, and the grid after the call is
the old grid with that (nonzero) candidate written into the cell. -/
theorem solve_this_cell_one_inv (s : BoardRep) (r c : Nat) (poss : List Nat) (g : Grid)
    (h : solve_this_cell s r c = (.ONE_VALUE, poss, g)) :
    cellAt s.board r c = 0 ∧ poss.length = 1 ∧ poss.headD 0 ≠ 0 ∧
      g = setCell s.board r c (poss.headD 0) ∧ poss = possible_numbers_of s r c := by
  unfold solve_this_cell at h
  split at h
  · exact absurd (congrArg Prod.fst h) (by simp)
  · rename_i h0
    dsimp only at h
    split at h
    · rename_i hlen
      rw [Prod.ext_iff] at h
      obtain ⟨-, h2⟩ := h
      rw [Prod.ext_iff] at h2
      obtain ⟨hposs, hg⟩ := h2
      dsimp only at hposs hg
      subst hposs
      have hne : possible_numbers_of s r c ≠ [] := by
        intro hnil
        rw [hnil] at hlen
        exact absurd hlen (by simp)
      have hmem := headD_mem _ hne
      have hb := mem_candidate_list s r c _ hmem
      exact ⟨Decidable.not_not.mp h0, hlen, by omega, hg.symm, rfl⟩
    · split at h
      · exact absurd (congrArg Prod.fst h) (by simp)
      · exact absurd (congrArg Prod.fst h) (by simp)

/-- On every outcome other than ONE_VALUE, solve_this_cell leaves the
grid untouched. -/
theorem solve_this_cell_same_board (s : BoardRep) (r c : Nat) (res : SudokuCellReturnValues)
    (poss : List Nat) (g : Grid) (hres : res ≠ .ONE_VALUE)
    (h : solve_this_cell s r c = (res, poss, g)) : g = s.board := by
  unfold solve_this_cell at h
  split at h
  · rw [Prod.ext_iff] at h
    obtain ⟨-, h2⟩ := h
    exact ((Prod.ext_iff.mp h2).2).symm
  · dsimp only at h
    split at h
    · exact absurd ((Prod.ext_iff.mp h).1).symm hres
    · split at h
      · rw [Prod.ext_iff] at h
        exact ((Prod.ext_iff.mp (h.2)).2).symm
      · rw [Prod.ext_iff] at h
        exact ((Prod.ext_iff.mp (h.2)).2).symm

/-- A cell that is blank when solve_this_cell does anything other than
report ALREADY_FILLED. -/
theorem solve_this_cell_blank (s : BoardRep) (r c : Nat) (res : SudokuCellReturnValues)
    (poss : List Nat) (g : Grid) (hres : res ≠ .ALREADY_FILLED)
    (h : solve_this_cell s r c = (res, poss, g)) : cellAt s.board r c = 0 := by
  unfold solve_this_cell at h
  split at h
  · exact absurd ((Prod.ext_iff.mp h).1).symm hres
  · rename_i h0
    exact Decidable.not_not.mp h0

/-- setCell preserves the number of rows and every row length. -/
theorem setCell_shape (g : Grid) (r c v : Nat) :
    (setCell g r c v).length = g.length ∧
      ∀ i, ((setCell g r c v).getD i []).length = (g.getD i []).length := by
  refine ⟨by simp [setCell], ?_⟩
  intro i
  unfold setCell
  by_cases hi : i = r
  · subst hi
    by_cases hlen : i < g.length
    · rw [getD_set_self g i _ hlen]
      simp
    · rw [List.set_eq_of_length_le (Nat.le_of_not_lt hlen)]
  · rw [getD_set_ne g r i _ (fun e => hi e.symm)]

/-- ZERO_VALUES short circuits: once a prefix of the scan reports
ZERO_VALUES, appending more cells to the scan changes nothing. -/
theorem iterCells_zero_append :
    ∀ (ps1 ps2 : List (Nat × Nat)) (s : BoardRep) (chg : Bool) (s1 : BoardRep),
      iterCells ps1 s chg = (.zero, s1) → iterCells (ps1 ++ ps2) s chg = (.zero, s1)
  | [], _, s, chg, s1, h => by
    exact absurd (congrArg Prod.fst h) (by simp [iterCells])
  | (r, c) :: ps1, ps2, s, chg, s1, h => by
    rw [List.cons_append]
    unfold iterCells at h ⊢
    match hres : solve_this_cell s r c with
    | (.ALREADY_FILLED, poss, g) =>
      rw [hres] at h
      exact iterCells_zero_append ps1 ps2 s chg s1 h
    | (.ZERO_VALUES, poss, g) =>
      rw [hres] at h
      exact h
    | (.ONE_VALUE, poss, g) =>
      rw [hres] at h
      exact iterCells_zero_append ps1 ps2 _ true s1 h
    | (.MULTIPLE_VALUES, poss, g) =>
      rw [hres] at h
      exact iterCells_zero_append ps1 ps2 _ chg s1 h

/-- Assigned (nonzero) cells are never changed by the scan. -/
theorem iterCells_preserves_assigned :
    ∀ (ps : List (Nat × Nat)) (s : BoardRep) (chg : Bool) (r1 c1 : Nat),
      cellAt s.board r1 c1 ≠ 0 →
      cellAt (iterCells ps s chg).2.board r1 c1 = cellAt s.board r1 c1
  | [], s, chg, r1, c1, _ => rfl
  | (r, c) :: ps, s, chg, r1, c1, hnz => by
    unfold iterCells
    match hres : solve_this_cell s r c with
    | (.ALREADY_FILLED, poss, g) => exact iterCells_preserves_assigned ps s chg r1 c1 hnz
    | (.ZERO_VALUES, poss, g) => rfl
    | (.ONE_VALUE, poss, g) =>
      obtain ⟨h0, hlen, hv, hg, hposseq⟩ := solve_this_cell_one_inv s r c poss g hres
      have hne : (r1, c1) ≠ (r, c) := by
        intro he
        rw [Prod.ext_iff] at he
        obtain ⟨he1, he2⟩ := he
        dsimp only at he1 he2
        rw [he1, he2] at hnz
        exact hnz h0
      have hcell : cellAt g r1 c1 = cellAt s.board r1 c1 := by
        rw [hg]
        exact cellAt_setCell_ne s.board r c _ r1 c1 hne
      have hrec := iterCells_preserves_assigned ps
        (eliminateBox (eliminateCol (eliminateRow { s with board := g } r) c) (boxIndex r c)) true r1 c1
      rw [show (eliminateBox (eliminateCol (eliminateRow { s with board := g } r) c)
        (boxIndex r c)).board = g from rfl, hcell] at hrec
      exact hrec hnz
    | (.MULTIPLE_VALUES, poss, g) =>
      exact iterCells_preserves_assigned ps _ chg r1 c1 hnz

/-- Every entry of the multi list after a scan either was already there
or names a cell that was blank when the scan started. -/
theorem iterCells_multi_inv :
    ∀ (ps : List (Nat × Nat)) (s : BoardRep) (chg : Bool),
      ∀ e ∈ (iterCells ps s chg).2.multi, e ∈ s.multi ∨ cellAt s.board e.1 e.2.1 = 0
  | [], s, chg, e, he => Or.inl he
  | (r, c) :: ps, s, chg, e, he => by
    unfold iterCells at he
    match hres : solve_this_cell s r c with
    | (.ALREADY_FILLED, poss, g) =>
      rw [hres] at he
      exact iterCells_multi_inv ps s chg e he
    | (.ZERO_VALUES, poss, g) =>
      rw [hres] at he
      exact Or.inl he
    | (.ONE_VALUE, poss, g) =>
      rw [hres] at he
      obtain ⟨h0, hlen, hv, hg, hposseq⟩ := solve_this_cell_one_inv s r c poss g hres
      rcases iterCells_multi_inv ps _ true e he with hm | hz
      · exact Or.inl hm
      · right
        rw [show (eliminateBox (eliminateCol (eliminateRow { s with board := g } r) c)
          (boxIndex r c)).board = g from rfl] at hz
        by_cases hp : (e.1, e.2.1) = (r, c)
        · rw [Prod.ext_iff] at hp
          obtain ⟨hp1, hp2⟩ := hp
          dsimp only at hp1 hp2
          rw [hp1, hp2]
          exact h0
        · rw [hg, cellAt_setCell_ne s.board r c _ e.1 e.2.1 hp] at hz
          exact hz
    | (.MULTIPLE_VALUES, poss, g) =>
      rw [hres] at he
      rcases iterCells_multi_inv ps _ chg e he with hm | hz
      · dsimp only at hm
        rcases List.mem_append.mp hm with hm | hm
        · exact Or.inl hm
        · right
          rw [List.mem_singleton.mp hm]
          exact solve_this_cell_blank s r c _ poss g (by simp) hres
      · exact Or.inr hz

/-- Counting meaning of the change_in_board flag: when the scan finishes
without a contradiction, the flag it returns is false only when it was
false at entry and the grid is untouched, and (entering with a reset
flag) it is true exactly when some cell was assigned, which strictly
decreases the number of blanks.  The bounds hypothesis says every scanned
position is inside the grid. -/
theorem iterCells_changed_inv :
    ∀ (ps : List (Nat × Nat)) (s : BoardRep) (chg : Bool) (b : Bool) (s1 : BoardRep),
      (∀ p ∈ ps, p.1 < s.board.length ∧ p.2 < (s.board.getD p.1 []).length) →
      iterCells ps s chg = (.changed b, s1) →
      countZeros s1.board ≤ countZeros s.board ∧
      (b = false → chg = false ∧ s1.board = s.board) ∧
      (chg = false → b = true → countZeros s1.board < countZeros s.board)
  | [], s, chg, b, s1, _, h => by
    rw [iterCells] at h
    rw [Prod.ext_iff] at h
    obtain ⟨hb, hs⟩ := h
    have hb2 : chg = b := by
      have := hb
      injection this
    dsimp only at hs
    subst hs
    subst hb2
    exact ⟨Nat.le_refl _, fun hf => ⟨hf, rfl⟩, fun hf ht => absurd (hf.symm.trans ht) (by simp)⟩
  | (r, c) :: ps, s, chg, b, s1, hbound, h => by
    unfold iterCells at h
    match hres : solve_this_cell s r c with
    | (.ALREADY_FILLED, poss, g) =>
      rw [hres] at h
      exact iterCells_changed_inv ps s chg b s1 (fun p hp => hbound p (List.mem_cons_of_mem _ hp)) h
    | (.ZERO_VALUES, poss, g) =>
      rw [hres] at h
      exact absurd (congrArg Prod.fst h) (by simp)
    | (.ONE_VALUE, poss, g) =>
      rw [hres] at h
      obtain ⟨h0, hlen, hv, hg, hposseq⟩ := solve_this_cell_one_inv s r c poss g hres
      have hshape := setCell_shape s.board r c (poss.headD 0)
      have hb0 := hbound (r, c) (List.mem_cons_self _ _)
      have hlt : countZeros g < countZeros s.board := by
        rw [hg]
        exact countZeros_setCell_lt s.board r c _ hb0.1 hb0.2 h0 hv
      have hbound2 : ∀ p ∈ ps, p.1 <
          (eliminateBox (eliminateCol (eliminateRow { s with board := g } r) c)
            (boxIndex r c)).board.length ∧
          p.2 < ((eliminateBox (eliminateCol (eliminateRow { s with board := g } r) c)
            (boxIndex r c)).board.getD p.1 []).length := by
        intro p hp
        have hb1 := hbound p (List.mem_cons_of_mem _ hp)
        rw [show (eliminateBox (eliminateCol (eliminateRow { s with board := g } r) c)
          (boxIndex r c)).board = g from rfl, hg]
        rw [(setCell_shape s.board r c (poss.headD 0)).1,
          (setCell_shape s.board r c (poss.headD 0)).2 p.1]
        exact hb1
      obtain ⟨hle, hfalse, hstrict⟩ := iterCells_changed_inv ps _ true b s1 hbound2 h
      rw [show (eliminateBox (eliminateCol (eliminateRow { s with board := g } r) c)
        (boxIndex r c)).board = g from rfl] at hle hfalse
      refine ⟨Nat.le_of_lt (Nat.lt_of_le_of_lt hle hlt), ?_, ?_⟩
      · intro hbf
        exact absurd (hfalse hbf).1 (by simp)
      · intro _ _
        exact Nat.lt_of_le_of_lt hle hlt
    | (.MULTIPLE_VALUES, poss, g) =>
      rw [hres] at h
      exact iterCells_changed_inv ps { s with multi := s.multi ++ [(r, c, poss)] } chg b s1
        (fun p hp => hbound p (List.mem_cons_of_mem _ hp)) h

/-- Assigned cells keep their value through the whole elimination loop. -/
theorem solveLoop_preserves_assigned :
    ∀ (fuel : Nat) (s : BoardRep) (r1 c1 : Nat), cellAt s.board r1 c1 ≠ 0 →
      cellAt (solveLoop fuel s).2.board r1 c1 = cellAt s.board r1 c1
  | 0, s, r1, c1, _ => rfl
  | fuel + 1, s, r1, c1, hnz => by
    have hiter := iterCells_preserves_assigned allPositions { s with multi := [] } false r1 c1 hnz
    unfold solveLoop
    match hres : do_one_iteration s with
    | (.zero, s1) =>
      rw [do_one_iteration] at hres
      rw [hres] at hiter
      exact hiter
    | (.changed true, s1) =>
      rw [do_one_iteration] at hres
      rw [hres] at hiter
      rw [solveLoop_preserves_assigned fuel s1 r1 c1 (by rw [hiter]; exact hnz)]
      exact hiter
    | (.changed false, s1) =>
      rw [do_one_iteration] at hres
      rw [hres] at hiter
      exact hiter

/-- When the loop exits with a stall, every recorded multi cell was blank
in the grid the loop started from. -/
theorem solveLoop_multi_blank :
    ∀ (fuel : Nat) (s s1 : BoardRep), solveLoop fuel s = (.stalled, s1) →
      ∀ e ∈ s1.multi, cellAt s.board e.1 e.2.1 = 0
  | 0, s, s1, h => by
    exact absurd (congrArg Prod.fst h) (by simp [solveLoop])
  | fuel + 1, s, s1, h => by
    unfold solveLoop at h
    match hres : do_one_iteration s with
    | (.zero, s2) =>
      rw [hres] at h
      exact absurd (congrArg Prod.fst h) (by simp)
    | (.changed true, s2) =>
      rw [hres] at h
      intro e he
      have hrec := solveLoop_multi_blank fuel s2 s1 h e he
      by_contra hnz
      have hpres := iterCells_preserves_assigned allPositions { s with multi := [] } false e.1 e.2.1 hnz
      rw [do_one_iteration] at hres
      rw [hres] at hpres
      rw [hrec] at hpres
      exact hnz hpres.symm
    | (.changed false, s2) =>
      rw [hres] at h
      rw [Prod.ext_iff] at h
      obtain ⟨-, hs⟩ := h
      dsimp only at hs
      subst hs
      intro e he
      rw [do_one_iteration] at hres
      have := iterCells_multi_inv allPositions { s with multi := [] } false e (by rw [hres]; exact he)
      rcases this with hm | hz
      · exact absurd hm (List.not_mem_nil e)
      · exact hz

/-- The state update of the ONE_VALUE branch of do_one_iteration: only
the three groups owning the cell have eliminate_numbers re-run (against
the updated grid); every other group, the grid outside the update and the
multi list are untouched. -/
theorem one_value_update_groups (s : BoardRep) (r c : Nat) (g : Grid) :
    (eliminateBox (eliminateCol (eliminateRow { s with board := g } r) c) (boxIndex r c)).board
        = g ∧
    (eliminateBox (eliminateCol (eliminateRow { s with board := g } r) c) (boxIndex r c)).multi
        = s.multi ∧
    (∀ j, j ≠ r →
      (eliminateBox (eliminateCol (eliminateRow { s with board := g } r) c)
          (boxIndex r c)).rowsValid.getD j [] = s.rowsValid.getD j []) ∧
    (∀ j, j ≠ c →
      (eliminateBox (eliminateCol (eliminateRow { s with board := g } r) c)
          (boxIndex r c)).colsValid.getD j [] = s.colsValid.getD j []) ∧
    (∀ j, j ≠ boxIndex r c →
      (eliminateBox (eliminateCol (eliminateRow { s with board := g } r) c)
          (boxIndex r c)).boxesValid.getD j [] = s.boxesValid.getD j []) ∧
    (r < s.rowsValid.length →
      (eliminateBox (eliminateCol (eliminateRow { s with board := g } r) c)
          (boxIndex r c)).rowsValid.getD r [] =
        eliminate_numbers (s.rowsValid.getD r []) (rowNumbers g r)) ∧
    (c < s.colsValid.length →
      (eliminateBox (eliminateCol (eliminateRow { s with board := g } r) c)
          (boxIndex r c)).colsValid.getD c [] =
        eliminate_numbers (s.colsValid.getD c []) (colNumbers g c)) ∧
    (boxIndex r c < s.boxesValid.length →
      (eliminateBox (eliminateCol (eliminateRow { s with board := g } r) c)
          (boxIndex r c)).boxesValid.getD (boxIndex r c) [] =
        eliminate_numbers (s.boxesValid.getD (boxIndex r c) []) (boxNumbers g (boxIndex r c))) := by
  refine ⟨rfl, rfl, ?_, ?_, ?_, ?_, ?_, ?_⟩
  · intro j hj
    exact getD_set_ne s.rowsValid r j _ (Ne.symm hj)
  · intro j hj
    exact getD_set_ne s.colsValid c j _ (Ne.symm hj)
  · intro j hj
    exact getD_set_ne s.boxesValid (boxIndex r c) j _ (Ne.symm hj)
  · intro hlt
    exact getD_set_self s.rowsValid r _ hlt
  · intro hlt
    exact getD_set_self s.colsValid c _ hlt
  · intro hlt
    exact getD_set_self s.boxesValid (boxIndex r c) _ hlt

/-- C7: do_one_iteration resets the stall candidate list (its result does
not depend on the incoming multi list), visits the cells in row major
order (position 9r + c of the visit list is cell (r, c)), returns
ZERO_VALUES at the first cell that reports it, skipping every cell not
yet visited, handles a ONE_VALUE cell by re-running eliminate_numbers on
exactly the three groups owning that cell (all other groups untouched)
with the change flag set, appends each MULTIPLE_VALUES cell to the stall
candidate list, and when no contradiction occurred returns true exactly
when some cell was assigned this round (the grid changed). -/
theorem do_one_iteration_follows_spec (s : BoardRep) (m : List (Nat × Nat × List Nat)) :
    do_one_iteration { s with multi := m } = do_one_iteration { s with multi := [] } ∧
    (allPositions.length = 81 ∧
      ∀ r, r < 9 → ∀ c, c < 9 → allPositions.getD (9 * r + c) (0, 0) = (r, c)) ∧
    (∀ (ps1 ps2 : List (Nat × Nat)) (s0 : BoardRep) (chg : Bool) (s1 : BoardRep),
      iterCells ps1 s0 chg = (.zero, s1) → iterCells (ps1 ++ ps2) s0 chg = (.zero, s1)) ∧
    (∀ (s0 : BoardRep) (r c : Nat) (ps : List (Nat × Nat)) (chg : Bool) (poss : List Nat)
        (g : Grid), solve_this_cell s0 r c = (.ONE_VALUE, poss, g) →
      iterCells ((r, c) :: ps) s0 chg =
        iterCells ps
          (eliminateBox (eliminateCol (eliminateRow { s0 with board := g } r) c) (boxIndex r c))
          true ∧
      (∀ j, j ≠ r →
        (eliminateBox (eliminateCol (eliminateRow { s0 with board := g } r) c)
            (boxIndex r c)).rowsValid.getD j [] = s0.rowsValid.getD j []) ∧
      (∀ j, j ≠ c →
        (eliminateBox (eliminateCol (eliminateRow { s0 with board := g } r) c)
            (boxIndex r c)).colsValid.getD j [] = s0.colsValid.getD j []) ∧
      (∀ j, j ≠ boxIndex r c →
        (eliminateBox (eliminateCol (eliminateRow { s0 with board := g } r) c)
            (boxIndex r c)).boxesValid.getD j [] = s0.boxesValid.getD j [])) ∧
    (∀ (s0 : BoardRep) (r c : Nat) (ps : List (Nat × Nat)) (chg : Bool) (poss : List Nat)
        (g : Grid), solve_this_cell s0 r c = (.MULTIPLE_VALUES, poss, g) →
      iterCells ((r, c) :: ps) s0 chg =
        iterCells ps { s0 with multi := s0.multi ++ [(r, c, poss)] } chg) ∧
    (s.board.length = 9 → (∀ row ∈ s.board, row.length = 9) →
      ∀ (b : Bool) (s1 : BoardRep), do_one_iteration s = (.changed b, s1) →
        (b = true ↔ s1.board ≠ s.board)) := by
  refine ⟨rfl, ⟨by decide, by decide⟩, iterCells_zero_append, ?_, ?_, ?_⟩
  · intro s0 r c ps chg poss g h
    obtain ⟨-, -, hrows, hcols, hboxes, -, -, -⟩ := one_value_update_groups s0 r c g
    refine ⟨?_, hrows, hcols, hboxes⟩
    rw [iterCells, h]
  · intro s0 r c ps chg poss g h
    rw [iterCells, h]
  · intro hlen hrows b s1 h
    have hbound : ∀ p ∈ allPositions,
        p.1 < ({ s with multi := ([] : List (Nat × Nat × List Nat)) }).board.length ∧
        p.2 < (({ s with multi := ([] : List (Nat × Nat × List Nat)) }).board.getD p.1 []).length := by
      intro p hp
      have hp9 : p.1 < 9 ∧ p.2 < 9 := by
        revert hp
        revert p
        decide
      have hp1 : p.1 < s.board.length := by
        rw [hlen]
        exact hp9.1
      constructor
      · exact hp1
      · show p.2 < (s.board.getD p.1 []).length
        have hmem : s.board.getD p.1 [] ∈ s.board := by
          rw [List.getD_eq_getElem s.board [] hp1]
          exact List.getElem_mem hp1
        rw [hrows _ hmem]
        exact hp9.2
    rw [do_one_iteration] at h
    obtain ⟨hle, hfalse, hstrict⟩ :=
      iterCells_changed_inv allPositions { s with multi := [] } false b s1 hbound h
    constructor
    · intro hb
      have hlt := hstrict rfl hb
      intro heq
      rw [heq] at hlt
      exact absurd hlt (by simp)
    · intro hne
      by_contra hb
      have hb2 : b = false := by
        cases b
        · rfl
        · exact absurd rfl hb
      exact hne (hfalse hb2).2

/-- Witness for the C7 theorem at the live board of puzzleTwoSolutions:
the incoming multi list is ignored, and the first round reports no change
with the grid indeed untouched. -/
theorem do_one_iteration_follows_spec_witness :
    do_one_iteration
        { initial_eliminate (setup_internal_representation puzzleTwoSolutions) with
          multi := [(0, 0, [1, 2])] } =
      do_one_iteration
        { initial_eliminate (setup_internal_representation puzzleTwoSolutions) with
          multi := [] } ∧
    ((false = true) ↔
      (do_one_iteration (initial_eliminate (setup_internal_representation puzzleTwoSolutions))).2.board ≠
        (initial_eliminate (setup_internal_representation puzzleTwoSolutions)).board) := by
  have h := do_one_iteration_follows_spec
    (initial_eliminate (setup_internal_representation puzzleTwoSolutions)) [(0, 0, [1, 2])]
  exact ⟨h.1, h.2.2.2.2.2 (by decide) (by decide) false
    (do_one_iteration (initial_eliminate (setup_internal_representation puzzleTwoSolutions))).2
    (by decide)⟩

/-- The selection fold either returns the line 201 sentinel or the data
of some recorded multi cell. -/
theorem select_branch_cell_cases :
    ∀ (multi : List (Nat × Nat × List Nat)),
      select_branch_cell multi = (10, (-1, -1), []) ∨
      ∃ e ∈ multi, select_branch_cell multi =
        (e.2.2.length, ((e.1 : Int), (e.2.1 : Int)), e.2.2) := by
  have general : ∀ (l : List (Nat × Nat × List Nat)) (acc : Nat × (Int × Int) × List Nat),
      l.foldl
          (fun acc cell =>
            if cell.2.2.length < acc.1 then
              (cell.2.2.length, ((cell.1 : Int), (cell.2.1 : Int)), cell.2.2)
            else acc) acc = acc ∨
      ∃ e ∈ l, l.foldl
          (fun acc cell =>
            if cell.2.2.length < acc.1 then
              (cell.2.2.length, ((cell.1 : Int), (cell.2.1 : Int)), cell.2.2)
            else acc) acc = (e.2.2.length, ((e.1 : Int), (e.2.1 : Int)), e.2.2) := by
    intro l
    induction l with
    | nil => exact fun acc => Or.inl rfl
    | cons e l ih =>
      intro acc
      rw [List.foldl_cons]
      by_cases he : e.2.2.length < acc.1
      · rw [if_pos he]
        rcases ih (e.2.2.length, ((e.1 : Int), (e.2.1 : Int)), e.2.2) with h | ⟨e2, he2, h⟩
        · exact Or.inr ⟨e, List.mem_cons_self e l, h⟩
        · exact Or.inr ⟨e2, List.mem_cons_of_mem e he2, h⟩
      · rw [if_neg he]
        rcases ih acc with h | ⟨e2, he2, h⟩
        · exact Or.inl h
        · exact Or.inr ⟨e2, List.mem_cons_of_mem e he2, h⟩
  intro multi
  exact general multi (10, (-1, -1), [])

/-- C10: a cell whose number is nonzero is never changed by any engine
operation: eliminate_numbers never touches the grid, solve_this_cell and
do_one_iteration preserve every assigned cell, and every snapshot
solve_board derives from a board (the grid it appends to the registry and
the guessed grids it wraps into child seeds) carries every originally
assigned digit unchanged at its position. -/
theorem assigned_cells_permanent (fuel : Nat) (input : Grid) (depth : Nat)
    (registry : List Grid) (r1 c1 : Nat) (hnz : cellAt input r1 c1 ≠ 0) :
    (∀ (s : BoardRep) (i : Nat),
      (eliminateRow s i).board = s.board ∧ (eliminateCol s i).board = s.board ∧
        (eliminateBox s i).board = s.board) ∧
    (∀ (s : BoardRep) (r c : Nat), cellAt s.board r1 c1 ≠ 0 →
      cellAt (solve_this_cell s r c).2.2 r1 c1 = cellAt s.board r1 c1) ∧
    (∀ (s : BoardRep), cellAt s.board r1 c1 ≠ 0 →
      cellAt (do_one_iteration s).2.board r1 c1 = cellAt s.board r1 c1) ∧
    (∀ b ∈ (solve_board fuel input depth registry).registry,
      b ∈ registry ∨ cellAt b r1 c1 = cellAt input r1 c1) ∧
    (∀ sd ∈ (solve_board fuel input depth registry).childSeeds,
      cellAt sd.grid r1 c1 = cellAt input r1 c1) := by
  have hcell : ∀ (s : BoardRep) (r c : Nat), cellAt s.board r1 c1 ≠ 0 →
      cellAt (solve_this_cell s r c).2.2 r1 c1 = cellAt s.board r1 c1 := by
    intro s r c hs
    match hres : solve_this_cell s r c with
    | (.ALREADY_FILLED, poss, g) =>
      rw [solve_this_cell_same_board s r c _ poss g (by simp) hres]
    | (.ZERO_VALUES, poss, g) =>
      rw [solve_this_cell_same_board s r c _ poss g (by simp) hres]
    | (.MULTIPLE_VALUES, poss, g) =>
      rw [solve_this_cell_same_board s r c _ poss g (by simp) hres]
    | (.ONE_VALUE, poss, g) =>
      obtain ⟨h0, hlen, hv, hg, hposseq⟩ := solve_this_cell_one_inv s r c poss g hres
      have hne : (r1, c1) ≠ (r, c) := by
        intro he
        rw [Prod.ext_iff] at he
        obtain ⟨he1, he2⟩ := he
        dsimp only at he1 he2
        rw [he1, he2] at hs
        exact hs h0
      show cellAt g r1 c1 = cellAt s.board r1 c1
      rw [hg]
      exact cellAt_setCell_ne s.board r c _ r1 c1 hne
  have hloop := solveLoop_preserves_assigned fuel
    (initial_eliminate (setup_internal_representation input)) r1 c1 hnz
  refine ⟨fun s i => ⟨rfl, rfl, rfl⟩, hcell, ?_, ?_, ?_⟩
  · intro s hs
    rw [do_one_iteration]
    exact iterCells_preserves_assigned allPositions { s with multi := [] } false r1 c1 hs
  · intro b hb
    match hres : solveLoop fuel (initial_eliminate (setup_internal_representation input)) with
    | (.fuelOut, s) =>
      rw [solve_board_eq_fuelOut fuel input depth registry s hres] at hb
      exact Or.inl hb
    | (.contradiction, s) =>
      rw [solve_board_eq_contradiction fuel input depth registry s hres] at hb
      exact Or.inl hb
    | (.stalled, s) =>
      by_cases hz : noZero s.board = true
      · rw [solve_board_eq_solved fuel input depth registry s hres hz] at hb
        dsimp only at hb
        rcases List.mem_append.mp hb with hb | hb
        · exact Or.inl hb
        · right
          rw [List.mem_singleton.mp hb]
          rw [hres] at hloop
          exact hloop
      · by_cases hm : s.multi.isEmpty = true
        · rw [solve_board_eq_assert fuel input depth registry s hres hz hm] at hb
          exact Or.inl hb
        · rw [solve_board_eq_branch fuel input depth registry s hres hz hm] at hb
          exact Or.inl hb
  · intro sd hsd
    match hres : solveLoop fuel (initial_eliminate (setup_internal_representation input)) with
    | (.fuelOut, s) =>
      rw [solve_board_eq_fuelOut fuel input depth registry s hres] at hsd
      exact absurd hsd (List.not_mem_nil sd)
    | (.contradiction, s) =>
      rw [solve_board_eq_contradiction fuel input depth registry s hres] at hsd
      exact absurd hsd (List.not_mem_nil sd)
    | (.stalled, s) =>
      by_cases hz : noZero s.board = true
      · rw [solve_board_eq_solved fuel input depth registry s hres hz] at hsd
        exact absurd hsd (List.not_mem_nil sd)
      · by_cases hm : s.multi.isEmpty = true
        · rw [solve_board_eq_assert fuel input depth registry s hres hz hm] at hsd
          exact absurd hsd (List.not_mem_nil sd)
        · rw [solve_board_eq_branch fuel input depth registry s hres hz hm] at hsd
          dsimp only at hsd
          unfold establish_child_tree_nodes at hsd
          rw [hres] at hloop
          rcases select_branch_cell_cases s.multi with hsel | ⟨e, hem, hsel⟩
          · rw [hsel] at hsd
            exact absurd hsd (List.not_mem_nil sd)
          · rw [hsel] at hsd
            dsimp only at hsd
            rcases List.mem_map.mp hsd with ⟨v, hvmem, hveq⟩
            have hblank := solveLoop_multi_blank fuel
              (initial_eliminate (setup_internal_representation input)) s hres e hem
            have hne : (r1, c1) ≠ (e.1, e.2.1) := by
              intro he
              rw [Prod.ext_iff] at he
              obtain ⟨he1, he2⟩ := he
              dsimp only at he1 he2
              rw [he1, he2] at hnz
              exact hnz hblank
            rw [← hveq]
            dsimp only
            rw [Int.toNat_natCast, Int.toNat_natCast]
            rw [cellAt_setCell_ne s.board e.1 e.2.1 v r1 c1 hne]
            exact hloop

/-- Witness for the C10 theorem: the given 5 at (0,0) of
puzzleTwoSolutions survives a full iteration round. -/
theorem assigned_cells_permanent_witness :
    cellAt puzzleTwoSolutions 0 0 ≠ 0 ∧
    cellAt (do_one_iteration
        (initial_eliminate (setup_internal_representation puzzleTwoSolutions))).2.board 0 0 =
      cellAt (initial_eliminate (setup_internal_representation puzzleTwoSolutions)).board 0 0 := by
  have h := assigned_cells_permanent 90 puzzleTwoSolutions 0 [] 0 0 (by decide)
  exact ⟨by decide, h.2.2.1
    (initial_eliminate (setup_internal_representation puzzleTwoSolutions)) (by decide)⟩

/-- find_total_nodes counts every node of the tree: a childless node
counts one, a node with children one plus the sum over the children. -/
theorem find_total_nodes_eq_collect_length :
    ∀ t : TreeNode, find_total_nodes t = (collect_nodes t).length := by
  intro t
  refine @TreeNode.rec (fun t => find_total_nodes t = (collect_nodes t).length)
    (fun l => ∀ u ∈ l, find_total_nodes u = (collect_nodes u).length) ?_ ?_ ?_ t
  · intro st ch d ih
    rw [find_total_nodes_mk, collect_nodes_mk]
    cases hch : ch with
    | nil => simp [collect_nodes_mk]
    | cons hd tl =>
      rw [hch] at ih
      rw [if_neg (by simp : ¬ (hd :: tl).isEmpty = true)]
      simp only [List.length_cons, List.length_flatten, List.map_map]
      rw [List.map_congr_left (g := List.length ∘ collect_nodes) (fun u hu => ih u hu)]
  · intro u hu
    exact absurd hu (List.not_mem_nil u)
  · intro hd tl ihh iht u hu
    rcases List.mem_cons.mp hu with hu | hu
    · rw [hu]
      exact ihh
    · exact iht u hu

/-- C9: print_solutions writes, in order, the pluralized summary line
with the exact three phrasings of the claim, each solved grid as its nine
digit lines followed by a blank line, the guesses line (total nodes minus
one) when exactly one solution was found and the node count line
otherwise, and finally the elapsed seconds line; and find_total_nodes
counts a childless node as 1 and a node with children as 1 plus the sum
of the counts of its children, which is the number of nodes of the
tree. -/
theorem print_solutions_follows_spec (solved_boards : List Grid) (root : TreeNode)
    (elapsed : String) :
    print_solutions solved_boards root elapsed =
      spec_summary_line solved_boards.length
        :: (solved_boards.map (fun board => get_str_rep_of_board board ++ "\n")
          ++ [spec_stats_line root solved_boards.length,
              "It took " ++ elapsed ++ " seconds to finish"]) ∧
    (∀ t : TreeNode, find_total_nodes t = (collect_nodes t).length) := by
  refine ⟨?_, find_total_nodes_eq_collect_length⟩
  unfold print_solutions spec_summary_line spec_stats_line
  match hn : solved_boards.length with
  | 0 => rfl
  | 1 => rfl
  | n + 2 =>
    simp only [if_neg (by omega : ¬ n + 2 = 1), if_neg (by omega : ¬ n + 2 = 0)]
    rw [show "There " ++ "are" ++ " " = "There are " from rfl]
    rw [String.append_assoc "There are " (toString (n + 2)) " "]
    rw [String.append_assoc "There are " (toString (n + 2) ++ " ") ("solution" ++ "s" ++ ":")]
    rw [String.append_assoc (toString (n + 2)) " " ("solution" ++ "s" ++ ":")]
    rfl

/-- Erasing each member number in turn from a duplicate free
valid_numbers list is filtering the members out (the silent KeyError
no-op included). -/
theorem eliminate_numbers_eq_filter :
    ∀ (ns : List Nat) (v : List Nat), v.Nodup →
      eliminate_numbers v ns = v.filter (fun x => decide (x ∉ ns))
  | [], v, hv => by
    simp [eliminate_numbers]
  | n :: ns, v, hv => by
    unfold eliminate_numbers
    rw [List.foldl_cons]
    have step : eliminate_numbers (v.erase n) ns =
        (v.erase n).filter (fun x => decide (x ∉ ns)) :=
      eliminate_numbers_eq_filter ns (v.erase n) (hv.erase n)
    rw [show List.foldl (fun v n => v.erase n) (v.erase n) ns = eliminate_numbers (v.erase n) ns
      from rfl]
    rw [step, hv.erase_eq_filter n, List.filter_filter]
    apply List.filter_congr
    intro x _
    by_cases hxn : x = n
    · subst hxn
      simp
    · simp [hxn]

theorem mem_complNums (ns : List Nat) (x : Nat) :
    x ∈ complNums ns ↔ 1 ≤ x ∧ x ≤ 9 ∧ x ∉ ns := by
  unfold complNums
  rw [List.mem_filter, List.mem_range'_1]
  simp only [decide_eq_true_eq]
  exact ⟨fun h => ⟨h.1.1, by omega, h.2⟩, fun h => ⟨⟨h.1, by omega⟩, h.2.2⟩⟩

theorem complNums_nodup (ns : List Nat) : (complNums ns).Nodup :=
  (List.nodup_range' 1 9).filter _

theorem getD_map_range (n : Nat) (f : Nat → List Nat) (i : Nat) (h : i < n) :
    ((List.range n).map f).getD i [] = f i := by
  rw [List.getD_eq_getElem?_getD, List.getElem?_map]
  rw [List.getElem?_eq_getElem (by simpa using h)]
  simp

theorem set_getD_self (l : List Nat) (i : Nat) : l.set i (l.getD i 0) = l := by
  by_cases h : i < l.length
  · apply List.ext_getElem
    · simp
    · intro j h1 h2
      by_cases hij : i = j
      · subst hij
        rw [List.getElem_set_self]
        exact List.getD_eq_getElem l 0 h
      · rw [List.getElem_set_ne hij]
  · rw [List.set_eq_of_length_le (Nat.le_of_not_lt h)]

/-- Changing the mapped value at one position of a duplicate free
position list swaps one occurrence in the multiset of mapped values:
both counts share a common remainder coming from the other positions. -/
theorem count_map_update (ps : List (Nat × Nat)) (hnd : ps.Nodup) (p0 : Nat × Nat)
    (hp : p0 ∈ ps) (f g : Nat × Nat → Nat) (hoth : ∀ p ∈ ps, p ≠ p0 → g p = f p) (d : Nat) :
    ∃ rest, (ps.map f).count d = (if f p0 = d then 1 else 0) + rest ∧
      (ps.map g).count d = (if g p0 = d then 1 else 0) + rest := by
  obtain ⟨l2, hperm, hrest⟩ : ∃ l2, ps.Perm (p0 :: l2) ∧ ∀ q ∈ l2, g q = f q := by
    refine ⟨_, List.perm_cons_erase hp, ?_⟩
    intro q hq
    have hnd2 := ((List.perm_cons_erase hp).nodup_iff).mp hnd
    rw [List.nodup_cons] at hnd2
    have hq_ne : q ≠ p0 := fun he => hnd2.1 (he ▸ hq)
    have hq_mem : q ∈ ps := ((List.perm_cons_erase hp).mem_iff).mpr (List.mem_cons_of_mem _ hq)
    exact hoth q hq_mem hq_ne
  refine ⟨(l2.map f).count d, ?_, ?_⟩
  · rw [List.Perm.count_eq (hperm.map f), List.map_cons, List.count_cons]
    simp only [beq_iff_eq]
    split_ifs <;> omega
  · rw [List.Perm.count_eq (hperm.map g), List.map_cons, List.count_cons,
      List.map_congr_left hrest]
    simp only [beq_iff_eq]
    split_ifs <;> omega

theorem getD_map_nat (g : Grid) (f : List Nat → Nat) (r : Nat) (h : r < g.length) :
    (g.map f).getD r 0 = f (g.getD r []) := by
  rw [List.getD_eq_getElem (g.map f) 0 (by simpa using h)]
  rw [List.getElem_map]
  rw [List.getD_eq_getElem g [] h]

theorem dims_row_len (g : Grid) (hD : Dims g) (r : Nat) (hr : r < 9) :
    (g.getD r []).length = 9 := by
  obtain ⟨hlen, hrows⟩ := hD
  have hrb : r < g.length := by omega
  apply hrows
  rw [List.getD_eq_getElem g [] hrb]
  exact List.getElem_mem hrb

theorem cellAt_setCell_self (g : Grid) (r c v : Nat) (hr : r < g.length)
    (hc : c < (g.getD r []).length) : cellAt (setCell g r c v) r c = v := by
  unfold cellAt setCell
  rw [getD_set_self g r _ hr]
  exact natGetD_set_self _ c v (by simpa using hc)

theorem rowNumbers_setCell_self (g : Grid) (r c v : Nat) (hr : r < g.length) :
    rowNumbers (setCell g r c v) r = (rowNumbers g r).set c v := by
  unfold rowNumbers setCell
  exact getD_set_self g r _ hr

theorem rowNumbers_setCell_ne (g : Grid) (r c v i : Nat) (hi : i ≠ r) :
    rowNumbers (setCell g r c v) i = rowNumbers g i :=
  getD_set_ne g r i _ (Ne.symm hi)

theorem colNumbers_setCell_self (g : Grid) (r c v : Nat) (hc : c < (g.getD r []).length) :
    colNumbers (setCell g r c v) c = (colNumbers g c).set r v := by
  unfold colNumbers setCell
  rw [List.map_set]
  rw [natGetD_set_self _ c v hc]

theorem colNumbers_setCell_ne (g : Grid) (r c v j : Nat) (hj : j ≠ c) :
    colNumbers (setCell g r c v) j = colNumbers g j := by
  unfold colNumbers setCell
  rw [List.map_set]
  rw [natGetD_set_ne _ c j v (Ne.symm hj)]
  by_cases hr : r < g.length
  · rw [show (g.getD r []).getD j 0 =
      (g.map (fun row => row.getD j 0)).getD r 0 from
        (getD_map_nat g (fun row => row.getD j 0) r hr).symm]
    exact set_getD_self _ r
  · exact List.set_eq_of_length_le (by simpa using Nat.le_of_not_lt hr)

theorem mem_boxPositions_iff (p : Nat × Nat) (b : Nat) :
    p ∈ boxPositions b ↔ p ∈ allPositions ∧ boxIndex p.1 p.2 = b := by
  unfold boxPositions
  rw [List.mem_filter]
  simp

theorem allPositions_nodup : allPositions.Nodup := by decide

theorem mem_allPositions (r c : Nat) (hr : r < 9) (hc : c < 9) : (r, c) ∈ allPositions := by
  unfold allPositions
  rw [List.mem_flatMap]
  exact ⟨r, by simpa using hr, List.mem_map.mpr ⟨c, by simpa using hc, rfl⟩⟩

theorem boxNumbers_setCell_ne (g : Grid) (r c v b : Nat) (hb : b ≠ boxIndex r c) :
    boxNumbers (setCell g r c v) b = boxNumbers g b := by
  unfold boxNumbers
  apply List.map_congr_left
  intro p hp
  apply cellAt_setCell_ne
  intro he
  obtain ⟨-, hbox⟩ := (mem_boxPositions_iff p b).mp hp
  rw [Prod.ext_iff] at he
  obtain ⟨h1, h2⟩ := he
  dsimp only at h1 h2
  rw [h1, h2] at hbox
  exact hb hbox.symm

/-- The count relation between the box members before and after writing v
into the blank cell (r, c). -/
theorem boxNumbers_setCell_count (g : Grid) (r c v : Nat) (hr : r < 9) (hc : c < 9)
    (hrl : r < g.length) (hcl : c < (g.getD r []).length)
    (h0 : cellAt g r c = 0) (d : Nat) :
    ∃ rest, (boxNumbers g (boxIndex r c)).count d = (if d = 0 then 1 else 0) + rest ∧
      (boxNumbers (setCell g r c v) (boxIndex r c)).count d =
        (if v = d then 1 else 0) + rest := by
  have hmem : ((r, c) : Nat × Nat) ∈ boxPositions (boxIndex r c) :=
    (mem_boxPositions_iff (r, c) (boxIndex r c)).mpr ⟨mem_allPositions r c hr hc, rfl⟩
  obtain ⟨rest, h1, h2⟩ := count_map_update (boxPositions (boxIndex r c))
    (allPositions_nodup.filter _) (r, c) hmem
    (fun p => cellAt g p.1 p.2) (fun p => cellAt (setCell g r c v) p.1 p.2)
    (fun p hp hne => cellAt_setCell_ne g r c v p.1 p.2 (by
      intro he
      exact hne (by
        rw [Prod.ext_iff] at he ⊢
        exact he))) d
  refine ⟨rest, ?_, ?_⟩
  · rw [show boxNumbers g (boxIndex r c) =
      (boxPositions (boxIndex r c)).map (fun p => cellAt g p.1 p.2) from rfl]
    rw [h1]
    dsimp only
    rw [h0]
    congr 1
    by_cases hd : d = 0
    · rw [if_pos hd, if_pos hd.symm]
    · rw [if_neg hd, if_neg (fun e => hd e.symm)]
  · rw [show boxNumbers (setCell g r c v) (boxIndex r c) =
      (boxPositions (boxIndex r c)).map (fun p => cellAt (setCell g r c v) p.1 p.2) from rfl]
    rw [h2]
    dsimp only
    rw [cellAt_setCell_self g r c v hrl hcl]

theorem mem_candidatesOf (g : Grid) (r c x : Nat) :
    x ∈ candidatesOf g r c ↔
      1 ≤ x ∧ x ≤ 9 ∧ x ∉ rowNumbers g r ∧ x ∉ colNumbers g c ∧
        x ∉ boxNumbers g (boxIndex r c) := by
  unfold candidatesOf
  rw [List.mem_filter, List.mem_range'_1]
  simp only [Bool.and_eq_true, decide_eq_true_eq]
  constructor
  · rintro ⟨⟨h1, h2⟩, ⟨hr, hc⟩, hb⟩
    exact ⟨h1, by omega, hr, hc, hb⟩
  · rintro ⟨h1, h2, hr, hc, hb⟩
    exact ⟨⟨h1, by omega⟩, ⟨hr, hc⟩, hb⟩

/-- From a count shift by one fresh value: the group stays duplicate free
and its members are the old members plus the new value. -/
theorem count_shift_facts (old new : List Nat) (v : Nat) (hvnot : v ∉ old)
    (hdup : DupFree old)
    (hcount : ∀ d, 1 ≤ d → new.count d = old.count d + (if v = d then 1 else 0))
    (hv1 : 1 ≤ v) :
    DupFree new ∧ (∀ x, 1 ≤ x → (x ∈ new ↔ x ∈ old ∨ x = v)) := by
  have hv0 : old.count v = 0 := List.count_eq_zero.mpr hvnot
  constructor
  · intro d hdmem hd1
    rw [hcount d hd1]
    by_cases hdv : v = d
    · rw [if_pos hdv, ← hdv, hv0]
    · rw [if_neg hdv]
      by_cases hdo : d ∈ old
      · have := hdup d hdo hd1
        omega
      · rw [List.count_eq_zero.mpr hdo]
        omega
  · intro x hx1
    rw [← List.count_pos_iff, ← List.count_pos_iff, hcount x hx1]
    by_cases hvx : v = x
    · rw [if_pos hvx]
      constructor
      · intro _
        exact Or.inr hvx.symm
      · intro _
        omega
    · rw [if_neg hvx]
      constructor
      · intro h
        exact Or.inl (by omega)
      · rintro (h | h)
        · omega
        · exact absurd h.symm hvx

/-- Writing a candidate digit into a blank cell of a well formed grid
keeps the grid well formed: shape and digit range are preserved, groups
stay duplicate free, the untouched groups are unchanged, and each owning
group gains exactly the written digit. -/
theorem assign_preserves_groups (g : Grid) (r c v : Nat)
    (hD : Dims g) (hE : EntriesAtMost9 g) (hV : ValidGivens g)
    (hr : r < 9) (hc : c < 9) (h0 : cellAt g r c = 0) (hv : v ∈ candidatesOf g r c) :
    Dims (setCell g r c v) ∧ EntriesAtMost9 (setCell g r c v) ∧
    ValidGivens (setCell g r c v) ∧
    (∀ i, i ≠ r → rowNumbers (setCell g r c v) i = rowNumbers g i) ∧
    (∀ j, j ≠ c → colNumbers (setCell g r c v) j = colNumbers g j) ∧
    (∀ b, b ≠ boxIndex r c → boxNumbers (setCell g r c v) b = boxNumbers g b) ∧
    (∀ x, 1 ≤ x → (x ∈ rowNumbers (setCell g r c v) r ↔ x ∈ rowNumbers g r ∨ x = v)) ∧
    (∀ x, 1 ≤ x → (x ∈ colNumbers (setCell g r c v) c ↔ x ∈ colNumbers g c ∨ x = v)) ∧
    (∀ x, 1 ≤ x → (x ∈ boxNumbers (setCell g r c v) (boxIndex r c) ↔
      x ∈ boxNumbers g (boxIndex r c) ∨ x = v)) := by
  obtain ⟨hv1, hv9, hvrow, hvcol, hvbox⟩ := (mem_candidatesOf g r c v).mp hv
  have hrl : r < g.length := by
    rw [hD.1]
    exact hr
  have hrowlen : (g.getD r []).length = 9 := dims_row_len g hD r hr
  have hcl : c < (g.getD r []).length := by omega
  have hcl2 : c < (rowNumbers g r).length := hcl
  have hbi : boxIndex r c < 9 := by
    unfold boxIndex
    omega
  have hrowelem : (rowNumbers g r)[c] = 0 := by
    show (g.getD r [])[c] = 0
    rw [← List.getD_eq_getElem (g.getD r []) 0 hcl]
    exact h0
  have hcrow : ∀ d, 1 ≤ d → (rowNumbers (setCell g r c v) r).count d =
      (rowNumbers g r).count d + (if v = d then 1 else 0) := by
    intro d hd
    rw [rowNumbers_setCell_self g r c v hrl, List.count_set v d _ c hcl2, hrowelem]
    simp only [beq_iff_eq]
    split_ifs <;> omega
  have hcollen : (colNumbers g c).length = g.length := by
    unfold colNumbers
    simp
  have hrc : r < (colNumbers g c).length := by omega
  have hcolelem : (colNumbers g c)[r] = 0 := by
    show (g.map (fun row => row.getD c 0))[r] = 0
    rw [List.getElem_map]
    show (g[r]).getD c 0 = 0
    rw [← List.getD_eq_getElem g [] hrl]
    exact h0
  have hccol : ∀ d, 1 ≤ d → (colNumbers (setCell g r c v) c).count d =
      (colNumbers g c).count d + (if v = d then 1 else 0) := by
    intro d hd
    rw [colNumbers_setCell_self g r c v hcl, List.count_set v d _ r hrc, hcolelem]
    simp only [beq_iff_eq]
    split_ifs <;> omega
  have hcbox : ∀ d, 1 ≤ d → (boxNumbers (setCell g r c v) (boxIndex r c)).count d =
      (boxNumbers g (boxIndex r c)).count d + (if v = d then 1 else 0) := by
    intro d hd
    obtain ⟨rest, e1, e2⟩ := boxNumbers_setCell_count g r c v hr hc hrl hcl h0 d
    rw [e1, e2]
    split_ifs <;> omega
  obtain ⟨hrowdup, hrowmem⟩ :=
    count_shift_facts (rowNumbers g r) (rowNumbers (setCell g r c v) r) v hvrow
      ((hV r hr).1) hcrow hv1
  obtain ⟨hcoldup, hcolmem⟩ :=
    count_shift_facts (colNumbers g c) (colNumbers (setCell g r c v) c) v hvcol
      ((hV c hc).2.1) hccol hv1
  obtain ⟨hboxdup, hboxmem⟩ :=
    count_shift_facts (boxNumbers g (boxIndex r c))
      (boxNumbers (setCell g r c v) (boxIndex r c)) v hvbox
      ((hV (boxIndex r c) hbi).2.2) hcbox hv1
  have hmemrow : g.getD r [] ∈ g := by
    rw [List.getD_eq_getElem g [] hrl]
    exact List.getElem_mem hrl
  refine ⟨⟨by simpa [setCell] using hD.1, ?_⟩, ?_, ?_, ?_, ?_, ?_, hrowmem, hcolmem, hboxmem⟩
  · intro row hrow
    rcases List.mem_or_eq_of_mem_set hrow with hrow | hrow
    · exact hD.2 row hrow
    · rw [hrow]
      simpa using hrowlen
  · intro row hrow x hx
    rcases List.mem_or_eq_of_mem_set hrow with hrow | hrow
    · exact hE row hrow x hx
    · rw [hrow] at hx
      rcases List.mem_or_eq_of_mem_set hx with hx | hx
      · exact hE _ hmemrow x hx
      · omega
  · intro i hi
    refine ⟨?_, ?_, ?_⟩
    · by_cases hir : i = r
      · subst hir
        exact hrowdup
      · rw [rowNumbers_setCell_ne g r c v i hir]
        exact (hV i hi).1
    · by_cases hic : i = c
      · subst hic
        exact hcoldup
      · rw [colNumbers_setCell_ne g r c v i hic]
        exact (hV i hi).2.1
    · by_cases hib : i = boxIndex r c
      · subst hib
        exact hboxdup
      · rw [boxNumbers_setCell_ne g r c v i hib]
        exact (hV i hi).2.2
  · exact fun i hi => rowNumbers_setCell_ne g r c v i hi
  · exact fun j hj => colNumbers_setCell_ne g r c v j hj
  · exact fun b hb => boxNumbers_setCell_ne g r c v b hb

/-- Inversion of solve_this_cell on the MULTIPLE_VALUES outcome. -/
theorem solve_this_cell_mult_inv (s : BoardRep) (r c : Nat) (poss : List Nat) (g : Grid)
    (h : solve_this_cell s r c = (.MULTIPLE_VALUES, poss, g)) :
    cellAt s.board r c = 0 ∧ poss = possible_numbers_of s r c ∧ g = s.board := by
  unfold solve_this_cell at h
  split at h
  · exact absurd (congrArg Prod.fst h) (by simp)
  · rename_i h0
    dsimp only at h
    split at h
    · exact absurd (congrArg Prod.fst h) (by simp)
    · split at h
      · exact absurd (congrArg Prod.fst h) (by simp)
      · rw [Prod.ext_iff] at h
        obtain ⟨-, h2⟩ := h
        rw [Prod.ext_iff] at h2
        obtain ⟨hposs, hg⟩ := h2
        exact ⟨Decidable.not_not.mp h0, hposs.symm, hg.symm⟩

/-- Under the live board invariant, the possible_numbers a cell computes
are exactly the candidate digits read off the grid. -/
theorem possible_numbers_of_eq_candidates (s : BoardRep) (r c : Nat) (hInv : InvRep s)
    (hr : r < 9) (hc : c < 9) :
    possible_numbers_of s r c = candidatesOf s.board r c := by
  have hbi : boxIndex r c < 9 := by
    unfold boxIndex
    omega
  obtain ⟨hrowv, hcolv, hboxv⟩ := hInv.2.2.2.2.2.2 r hr
  obtain ⟨-, hcolv2, -⟩ := hInv.2.2.2.2.2.2 c hc
  obtain ⟨-, -, hboxv2⟩ := hInv.2.2.2.2.2.2 (boxIndex r c) hbi
  unfold possible_numbers_of candidatesOf
  apply List.filter_congr
  intro x hx
  have hx19 := List.mem_range'_1.mp hx
  rw [hrowv, hcolv2, hboxv2]
  congr 1
  · congr 1
    · apply decide_eq_decide.mpr
      rw [mem_complNums]
      constructor
      · intro h
        exact h.2.2
      · intro h
        exact ⟨by omega, by omega, h⟩
    · apply decide_eq_decide.mpr
      rw [mem_complNums]
      constructor
      · intro h
        exact h.2.2
      · intro h
        exact ⟨by omega, by omega, h⟩
  · apply decide_eq_decide.mpr
    rw [mem_complNums]
    constructor
    · intro h
      exact h.2.2
    · intro h
      exact ⟨by omega, by omega, h⟩

/-- Assigning a candidate digit to a blank cell and re-running
eliminate_numbers on the three owning groups preserves the live board
invariant. -/
theorem assign_elim_InvRep (s : BoardRep) (r c v : Nat) (hInv : InvRep s)
    (hr : r < 9) (hc : c < 9) (h0 : cellAt s.board r c = 0)
    (hvcand : v ∈ candidatesOf s.board r c) :
    InvRep (eliminateBox (eliminateCol
      (eliminateRow { s with board := setCell s.board r c v } r) c) (boxIndex r c)) := by
  have hbi : boxIndex r c < 9 := by
    unfold boxIndex
    omega
  have hv1 : 1 ≤ v := ((mem_candidatesOf s.board r c v).mp hvcand).1
  obtain ⟨hD2, hE2, hV2, hrowne, hcolne, hboxne, hrowmem, hcolmem, hboxmem⟩ :=
    assign_preserves_groups s.board r c v hInv.1 hInv.2.1 hInv.2.2.1 hr hc h0 hvcand
  refine ⟨hD2, hE2, hV2,
    by simp [eliminateRow, eliminateCol, eliminateBox, hInv.2.2.2.1],
    by simp [eliminateRow, eliminateCol, eliminateBox, hInv.2.2.2.2.1],
    by simp [eliminateRow, eliminateCol, eliminateBox, hInv.2.2.2.2.2.1], ?_⟩
  intro i hi
  refine ⟨?_, ?_, ?_⟩
  · show (s.rowsValid.set r (eliminate_numbers (s.rowsValid.getD r [])
      (rowNumbers (setCell s.board r c v) r))).getD i [] =
      complNums (rowNumbers (setCell s.board r c v) i)
    by_cases hir : i = r
    · subst hir
      rw [getD_set_self s.rowsValid i _ (by rw [hInv.2.2.2.1]; exact hi)]
      rw [(hInv.2.2.2.2.2.2 i hi).1]
      rw [eliminate_numbers_eq_filter _ _ (complNums_nodup _)]
      unfold complNums
      rw [List.filter_filter]
      apply List.filter_congr
      intro x hx
      have hx19 := List.mem_range'_1.mp hx
      by_cases hxnew : x ∈ rowNumbers (setCell s.board i c v) i
      · have h1 : (decide (x ∉ rowNumbers (setCell s.board i c v) i) : Bool) = false := by
          simp [hxnew]
        rw [h1, Bool.false_and]
      · have hxold : x ∉ rowNumbers s.board i := by
          intro hxo
          exact hxnew ((hrowmem x (by omega)).mpr (Or.inl hxo))
        have h1 : (decide (x ∉ rowNumbers (setCell s.board i c v) i) : Bool) = true := by
          simp [hxnew]
        have h2 : (decide (x ∉ rowNumbers s.board i) : Bool) = true := by
          simp [hxold]
        rw [h1, h2, Bool.true_and]
    · rw [getD_set_ne s.rowsValid r i _ (Ne.symm hir)]
      rw [(hInv.2.2.2.2.2.2 i hi).1]
      rw [hrowne i hir]
  · show (s.colsValid.set c (eliminate_numbers (s.colsValid.getD c [])
      (colNumbers (setCell s.board r c v) c))).getD i [] =
      complNums (colNumbers (setCell s.board r c v) i)
    by_cases hic : i = c
    · subst hic
      rw [getD_set_self s.colsValid i _ (by rw [hInv.2.2.2.2.1]; exact hi)]
      rw [(hInv.2.2.2.2.2.2 i hi).2.1]
      rw [eliminate_numbers_eq_filter _ _ (complNums_nodup _)]
      unfold complNums
      rw [List.filter_filter]
      apply List.filter_congr
      intro x hx
      have hx19 := List.mem_range'_1.mp hx
      by_cases hxnew : x ∈ colNumbers (setCell s.board r i v) i
      · have h1 : (decide (x ∉ colNumbers (setCell s.board r i v) i) : Bool) = false := by
          simp [hxnew]
        rw [h1, Bool.false_and]
      · have hxold : x ∉ colNumbers s.board i := by
          intro hxo
          exact hxnew ((hcolmem x (by omega)).mpr (Or.inl hxo))
        have h1 : (decide (x ∉ colNumbers (setCell s.board r i v) i) : Bool) = true := by
          simp [hxnew]
        have h2 : (decide (x ∉ colNumbers s.board i) : Bool) = true := by
          simp [hxold]
        rw [h1, h2, Bool.true_and]
    · rw [getD_set_ne s.colsValid c i _ (Ne.symm hic)]
      rw [(hInv.2.2.2.2.2.2 i hi).2.1]
      rw [hcolne i hic]
  · show (s.boxesValid.set (boxIndex r c) (eliminate_numbers (s.boxesValid.getD (boxIndex r c) [])
      (boxNumbers (setCell s.board r c v) (boxIndex r c)))).getD i [] =
      complNums (boxNumbers (setCell s.board r c v) i)
    by_cases hib : i = boxIndex r c
    · rw [hib]
      rw [getD_set_self s.boxesValid (boxIndex r c) _
        (by rw [hInv.2.2.2.2.2.1]; exact hbi)]
      rw [(hInv.2.2.2.2.2.2 (boxIndex r c) hbi).2.2]
      rw [eliminate_numbers_eq_filter _ _ (complNums_nodup _)]
      unfold complNums
      rw [List.filter_filter]
      apply List.filter_congr
      intro x hx
      have hx19 := List.mem_range'_1.mp hx
      by_cases hxnew : x ∈ boxNumbers (setCell s.board r c v) (boxIndex r c)
      · have h1 : (decide (x ∉ boxNumbers (setCell s.board r c v) (boxIndex r c)) : Bool)
            = false := by
          simp [hxnew]
        rw [h1, Bool.false_and]
      · have hxold : x ∉ boxNumbers s.board (boxIndex r c) := by
          intro hxo
          exact hxnew ((hboxmem x (by omega)).mpr (Or.inl hxo))
        have h1 : (decide (x ∉ boxNumbers (setCell s.board r c v) (boxIndex r c)) : Bool)
            = true := by
          simp [hxnew]
        have h2 : (decide (x ∉ boxNumbers s.board (boxIndex r c)) : Bool) = true := by
          simp [hxold]
        rw [h1, h2, Bool.true_and]
    · rw [getD_set_ne s.boxesValid (boxIndex r c) i _ fun e => hib e.symm]
      rw [(hInv.2.2.2.2.2.2 i hi).2.2]
      rw [hboxne i hib]

/-- A ONE_VALUE step of the scan preserves the live board invariant. -/
theorem one_value_step_InvRep (s : BoardRep) (r c : Nat) (poss : List Nat) (g : Grid)
    (hInv : InvRep s) (hr : r < 9) (hc : c < 9)
    (hone : solve_this_cell s r c = (.ONE_VALUE, poss, g)) :
    InvRep (eliminateBox (eliminateCol (eliminateRow { s with board := g } r) c)
      (boxIndex r c)) := by
  obtain ⟨h0, hlen, hvne, hg, hposseq⟩ := solve_this_cell_one_inv s r c poss g hone
  have hvmem : poss.headD 0 ∈ poss := by
    apply headD_mem
    intro hnil
    rw [hnil] at hlen
    exact absurd hlen (by simp)
  have hvcand : poss.headD 0 ∈ candidatesOf s.board r c := by
    rw [← possible_numbers_of_eq_candidates s r c hInv hr hc, ← hposseq]
    exact hvmem
  subst hg
  exact assign_elim_InvRep s r c (poss.headD 0) hInv hr hc h0 hvcand

/-- The scan preserves the live board invariant. -/
theorem iterCells_InvRep :
    ∀ (ps : List (Nat × Nat)) (s : BoardRep) (chg : Bool), InvRep s →
      (∀ p ∈ ps, p.1 < 9 ∧ p.2 < 9) → InvRep (iterCells ps s chg).2
  | [], s, chg, hInv, _ => hInv
  | (r, c) :: ps, s, chg, hInv, hbound => by
    have hb0 := hbound (r, c) (List.mem_cons_self _ _)
    have hbound2 := fun p hp => hbound p (List.mem_cons_of_mem _ hp)
    unfold iterCells
    match hres : solve_this_cell s r c with
    | (.ALREADY_FILLED, poss, g) => exact iterCells_InvRep ps s chg hInv hbound2
    | (.ZERO_VALUES, poss, g) => exact hInv
    | (.ONE_VALUE, poss, g) =>
      exact iterCells_InvRep ps _ true
        (one_value_step_InvRep s r c poss g hInv hb0.1 hb0.2 hres) hbound2
    | (.MULTIPLE_VALUES, poss, g) =>
      exact iterCells_InvRep ps { s with multi := s.multi ++ [(r, c, poss)] } chg hInv hbound2

/-- The elimination loop preserves the live board invariant. -/
theorem solveLoop_InvRep :
    ∀ (fuel : Nat) (s : BoardRep), InvRep s → InvRep (solveLoop fuel s).2
  | 0, s, hInv => hInv
  | fuel + 1, s, hInv => by
    have hps : ∀ p ∈ allPositions, p.1 < 9 ∧ p.2 < 9 := by decide
    have hiter := iterCells_InvRep allPositions { s with multi := [] } false hInv hps
    unfold solveLoop
    match hres : do_one_iteration s with
    | (.zero, s1) =>
      rw [do_one_iteration] at hres
      rw [hres] at hiter
      exact hiter
    | (.changed true, s1) =>
      rw [do_one_iteration] at hres
      rw [hres] at hiter
      exact solveLoop_InvRep fuel s1 hiter
    | (.changed false, s1) =>
      rw [do_one_iteration] at hres
      rw [hres] at hiter
      exact hiter

/-- The freshly set up and baseline eliminated representation of a well
formed input satisfies the live board invariant. -/
theorem initial_InvRep (input : Grid) (hD : Dims input) (hE : EntriesAtMost9 input)
    (hV : ValidGivens input) :
    InvRep (initial_eliminate (setup_internal_representation input)) := by
  refine ⟨hD, hE, hV, by simp [initial_eliminate, setup_internal_representation],
    by simp [initial_eliminate, setup_internal_representation],
    by simp [initial_eliminate, setup_internal_representation], ?_⟩
  intro i hi
  have hrepl : (List.replicate 9 (List.range' 1 9)).getD i [] = List.range' 1 9 := by
    rw [List.getD_eq_getElem _ [] (by simpa using hi)]
    exact List.getElem_replicate (List.range' 1 9) (by simpa using hi)
  refine ⟨?_, ?_, ?_⟩
  · show ((List.range 9).map (fun i => eliminate_numbers
      ((List.replicate 9 (List.range' 1 9)).getD i []) (rowNumbers input i))).getD i [] =
      complNums (rowNumbers input i)
    rw [getD_map_range 9 _ i hi, hrepl,
      eliminate_numbers_eq_filter _ _ (List.nodup_range' 1 9)]
    rfl
  · show ((List.range 9).map (fun i => eliminate_numbers
      ((List.replicate 9 (List.range' 1 9)).getD i []) (colNumbers input i))).getD i [] =
      complNums (colNumbers input i)
    rw [getD_map_range 9 _ i hi, hrepl,
      eliminate_numbers_eq_filter _ _ (List.nodup_range' 1 9)]
    rfl
  · show ((List.range 9).map (fun i => eliminate_numbers
      ((List.replicate 9 (List.range' 1 9)).getD i []) (boxNumbers input i))).getD i [] =
      complNums (boxNumbers input i)
    rw [getD_map_range 9 _ i hi, hrepl,
      eliminate_numbers_eq_filter _ _ (List.nodup_range' 1 9)]
    rfl

theorem mem_allPositions_bound : ∀ p ∈ allPositions, p.1 < 9 ∧ p.2 < 9 := by decide

theorem boxPositions_length : ∀ b, b < 9 → (boxPositions b).length = 9 := by decide

theorem getD_row_mem (g : Grid) (hD : Dims g) (r : Nat) (hr : r < 9) :
    g.getD r [] ∈ g := by
  have hrl : r < g.length := by
    rw [hD.1]
    exact hr
  rw [List.getD_eq_getElem g [] hrl]
  exact List.getElem_mem hrl

theorem cellAt_mem_row (g : Grid) (hD : Dims g) (r c : Nat) (hr : r < 9) (hc : c < 9) :
    cellAt g r c ∈ g.getD r [] := by
  have hcl : c < (g.getD r []).length := by
    rw [dims_row_len g hD r hr]
    exact hc
  show (g.getD r []).getD c 0 ∈ g.getD r []
  rw [List.getD_eq_getElem _ 0 hcl]
  exact List.getElem_mem hcl

/-- Nine distinct digits 1..9 in a list of length nine: every digit
appears exactly once. -/
theorem solved_group_of (l : List Nat) (hlen : l.length = 9)
    (hmem : ∀ x ∈ l, 1 ≤ x ∧ x ≤ 9) (hdup : DupFree l) : SolvedGroup l := by
  have hnodup : l.Nodup := by
    rw [List.nodup_iff_count_le_one]
    intro a
    by_cases ha : a ∈ l
    · exact hdup a ha (hmem a ha).1
    · rw [List.count_eq_zero.mpr ha]
      omega
  have hsub : l.toFinset ⊆ Finset.Icc 1 9 := by
    intro x hx
    have := hmem x (List.mem_toFinset.mp hx)
    rw [Finset.mem_Icc]
    omega
  have hcard : l.toFinset.card = 9 := by
    rw [List.toFinset_card_of_nodup hnodup, hlen]
  have heq : l.toFinset = Finset.Icc 1 9 := by
    apply Finset.eq_of_subset_of_card_le hsub
    rw [hcard, Nat.card_Icc]
  intro d hd10 hd1
  apply List.count_eq_one_of_mem hnodup
  rw [← List.mem_toFinset, heq, Finset.mem_Icc]
  omega

/-- A live board satisfying the invariant whose grid has no blank left is
a correctly solved grid. -/
theorem solved_grid_of_InvRep (s : BoardRep) (hInv : InvRep s) (hz : noZero s.board = true) :
    SolvedGrid s.board := by
  have hnz : ∀ row ∈ s.board, ∀ x ∈ row, x ≠ 0 := by
    intro row hrow x hx
    have := hz
    unfold noZero at this
    rw [List.all_eq_true] at this
    have := this row hrow
    rw [List.all_eq_true] at this
    simpa using this x hx
  have hD := hInv.1
  have hE := hInv.2.1
  have hV := hInv.2.2.1
  have hmem : ∀ row ∈ s.board, ∀ x ∈ row, 1 ≤ x ∧ x ≤ 9 := by
    intro row hrow x hx
    have h1 := hnz row hrow x hx
    have h2 := hE row hrow x hx
    omega
  refine ⟨hD, hmem, ?_⟩
  intro i hi
  refine ⟨?_, ?_, ?_⟩
  · apply solved_group_of _ (dims_row_len s.board hD i hi)
    · intro x hx
      exact hmem _ (getD_row_mem s.board hD i hi) x hx
    · exact (hV i hi).1
  · apply solved_group_of
    · show (s.board.map (fun row => row.getD i 0)).length = 9
      rw [List.length_map]
      exact hD.1
    · intro x hx
      rcases List.mem_map.mp hx with ⟨row, hrow, hxe⟩
      have hrowlen : row.length = 9 := hD.2 row hrow
      have hxrow : x ∈ row := by
        rw [← hxe, List.getD_eq_getElem row 0 (by omega)]
        exact List.getElem_mem (by omega)
      exact hmem row hrow x hxrow
    · exact (hV i hi).2.1
  · apply solved_group_of _ (by rw [show (boxNumbers s.board i).length =
      (boxPositions i).length from by simp [boxNumbers]]; exact boxPositions_length i hi)
    · intro x hx
      rcases List.mem_map.mp hx with ⟨p, hp, hxe⟩
      have hpb := mem_allPositions_bound p ((mem_boxPositions_iff p i).mp hp).1
      have : x ∈ s.board.getD p.1 [] := by
        rw [← hxe]
        exact cellAt_mem_row s.board hD p.1 p.2 hpb.1 hpb.2
      exact hmem _ (getD_row_mem s.board hD p.1 hpb.1) x this
    · exact (hV i hi).2.2

/-- The change flag is monotone: once set it is returned set. -/
theorem iterCells_chg_true :
    ∀ (ps : List (Nat × Nat)) (s : BoardRep) (b : Bool) (s1 : BoardRep),
      iterCells ps s true = (.changed b, s1) → b = true
  | [], s, b, s1, h => by
    rw [iterCells] at h
    have := (Prod.ext_iff.mp h).1
    injection this with hb
    exact hb.symm
  | (r, c) :: ps, s, b, s1, h => by
    unfold iterCells at h
    match hres : solve_this_cell s r c with
    | (.ALREADY_FILLED, poss, g) =>
      rw [hres] at h
      exact iterCells_chg_true ps s b s1 h
    | (.ZERO_VALUES, poss, g) =>
      rw [hres] at h
      exact absurd (congrArg Prod.fst h) (by simp)
    | (.ONE_VALUE, poss, g) =>
      rw [hres] at h
      exact iterCells_chg_true ps _ b s1 h
    | (.MULTIPLE_VALUES, poss, g) =>
      rw [hres] at h
      exact iterCells_chg_true ps _ b s1 h

/-- A scan that reports no change leaves the grid and every valid_numbers
list untouched, and every multi entry it adds names a cell that is blank
in the (unchanged) grid, scanned in this pass, with exactly the
possible_numbers that cell computes in this state. -/
theorem iterCells_nochange_inv :
    ∀ (ps : List (Nat × Nat)) (s : BoardRep) (chg : Bool) (s1 : BoardRep),
      iterCells ps s chg = (.changed false, s1) →
      s1.board = s.board ∧ s1.rowsValid = s.rowsValid ∧ s1.colsValid = s.colsValid ∧
        s1.boxesValid = s.boxesValid ∧
      ∀ e ∈ s1.multi, e ∈ s.multi ∨
        ((e.1, e.2.1) ∈ ps ∧ cellAt s.board e.1 e.2.1 = 0 ∧
          e.2.2 = possible_numbers_of s e.1 e.2.1)
  | [], s, chg, s1, h => by
    rw [iterCells] at h
    have hs := (Prod.ext_iff.mp h).2
    dsimp only at hs
    subst hs
    exact ⟨rfl, rfl, rfl, rfl, fun e he => Or.inl he⟩
  | (r, c) :: ps, s, chg, s1, h => by
    unfold iterCells at h
    match hres : solve_this_cell s r c with
    | (.ALREADY_FILLED, poss, g) =>
      rw [hres] at h
      obtain ⟨h1, h2, h3, h4, h5⟩ := iterCells_nochange_inv ps s chg s1 h
      refine ⟨h1, h2, h3, h4, ?_⟩
      intro e he
      rcases h5 e he with he2 | ⟨hp, hb, hposs⟩
      · exact Or.inl he2
      · exact Or.inr ⟨List.mem_cons_of_mem _ hp, hb, hposs⟩
    | (.ZERO_VALUES, poss, g) =>
      rw [hres] at h
      exact absurd (congrArg Prod.fst h) (by simp)
    | (.ONE_VALUE, poss, g) =>
      rw [hres] at h
      exact absurd (iterCells_chg_true ps _ false s1 h) (by simp)
    | (.MULTIPLE_VALUES, poss, g) =>
      rw [hres] at h
      obtain ⟨h0m, hpossm, hgm⟩ := solve_this_cell_mult_inv s r c poss g hres
      obtain ⟨h1, h2, h3, h4, h5⟩ :=
        iterCells_nochange_inv ps { s with multi := s.multi ++ [(r, c, poss)] } chg s1 h
      refine ⟨h1, h2, h3, h4, ?_⟩
      intro e he
      rcases h5 e he with he2 | ⟨hp, hb, hposs⟩
      · dsimp only at he2
        rcases List.mem_append.mp he2 with he3 | he3
        · exact Or.inl he3
        · rw [List.mem_singleton.mp he3]
          exact Or.inr ⟨List.mem_cons_self _ _, h0m, hpossm⟩
      · exact Or.inr ⟨List.mem_cons_of_mem _ hp, hb, hposs⟩

/-- When the elimination loop exits with a stall, every recorded multi
cell lies on the board, is blank in the final state, and carries exactly
the possible_numbers computed from the final state. -/
theorem solveLoop_stalled_multi :
    ∀ (fuel : Nat) (s0 s1 : BoardRep), solveLoop fuel s0 = (.stalled, s1) →
      ∀ e ∈ s1.multi, (e.1, e.2.1) ∈ allPositions ∧ cellAt s1.board e.1 e.2.1 = 0 ∧
        e.2.2 = possible_numbers_of s1 e.1 e.2.1
  | 0, s0, s1, h => by
    exact absurd (congrArg Prod.fst h) (by simp [solveLoop])
  | fuel + 1, s0, s1, h => by
    unfold solveLoop at h
    match hres : do_one_iteration s0 with
    | (.zero, s2) =>
      rw [hres] at h
      exact absurd (congrArg Prod.fst h) (by simp)
    | (.changed true, s2) =>
      rw [hres] at h
      exact solveLoop_stalled_multi fuel s2 s1 h
    | (.changed false, s2) =>
      rw [hres] at h
      have hs : s1 = s2 := by
        rw [Prod.ext_iff] at h
        exact ((h.2).symm)
      subst hs
      rw [do_one_iteration] at hres
      obtain ⟨h1, h2, h3, h4, h5⟩ :=
        iterCells_nochange_inv allPositions { s0 with multi := [] } false s1 hres
      intro e he
      rcases h5 e he with he2 | ⟨hp, hb, hposs⟩
      · exact absurd he2 (List.not_mem_nil e)
      · refine ⟨hp, ?_, ?_⟩
        · rw [h1]
          exact hb
        · rw [hposs]
          unfold possible_numbers_of
          rw [h2, h3, h4]

/-- On a well formed input, one call to solve_board appends only
correctly solved grids to the registry, and every child seed it creates
is again a well formed grid: one candidate digit written into a blank
branch cell. -/
theorem solve_board_valid (fuel : Nat) (input : Grid) (depth : Nat) (registry : List Grid)
    (hD : Dims input) (hE : EntriesAtMost9 input) (hV : ValidGivens input) :
    (∀ b ∈ (solve_board fuel input depth registry).registry, b ∈ registry ∨ SolvedGrid b) ∧
    ∀ seed ∈ (solve_board fuel input depth registry).childSeeds,
      Dims seed.grid ∧ EntriesAtMost9 seed.grid ∧ ValidGivens seed.grid := by
  have hInit := initial_InvRep input hD hE hV
  match hres : solveLoop fuel (initial_eliminate (setup_internal_representation input)) with
  | (.fuelOut, s) =>
    rw [solve_board_eq_fuelOut fuel input depth registry s hres]
    exact ⟨fun b hb => Or.inl hb, by simp⟩
  | (.contradiction, s) =>
    rw [solve_board_eq_contradiction fuel input depth registry s hres]
    exact ⟨fun b hb => Or.inl hb, by simp⟩
  | (.stalled, s) =>
    have hInv : InvRep s := by
      have h2 := solveLoop_InvRep fuel (initial_eliminate (setup_internal_representation input)) hInit
      rw [hres] at h2
      exact h2
    by_cases hz : noZero s.board = true
    · rw [solve_board_eq_solved fuel input depth registry s hres hz]
      refine ⟨?_, by simp⟩
      intro b hb
      rcases List.mem_append.mp hb with h1 | h2
      · exact Or.inl h1
      · rw [List.mem_singleton.mp h2]
        exact Or.inr (solved_grid_of_InvRep s hInv hz)
    · by_cases hm : s.multi.isEmpty = true
      · rw [solve_board_eq_assert fuel input depth registry s hres hz hm]
        exact ⟨fun b hb => Or.inl hb, by simp⟩
      · rw [solve_board_eq_branch fuel input depth registry s hres hz hm]
        refine ⟨fun b hb => Or.inl hb, ?_⟩
        intro seed hseed
        unfold establish_child_tree_nodes at hseed
        rcases select_branch_cell_cases s.multi with hsel | ⟨e, hemem, hsel⟩
        · rw [hsel] at hseed
          simp at hseed
        · rw [hsel] at hseed
          dsimp only at hseed
          obtain ⟨v, hv, hveq⟩ := List.mem_map.mp hseed
          obtain ⟨hpos, hblank, hposs⟩ :=
            solveLoop_stalled_multi fuel (initial_eliminate (setup_internal_representation input))
              s hres e hemem
          obtain ⟨hr9, hc9⟩ := mem_allPositions_bound (e.1, e.2.1) hpos
          rw [hposs, possible_numbers_of_eq_candidates s e.1 e.2.1 hInv hr9 hc9] at hv
          have hall := assign_preserves_groups s.board e.1 e.2.1 v hInv.1 hInv.2.1 hInv.2.2.1
            hr9 hc9 hblank hv
          rw [← hveq]
          dsimp only
          rw [Int.toNat_natCast, Int.toNat_natCast]
          exact ⟨hall.1, hall.2.1, hall.2.2.1⟩

/-- If the single node solver only adds correctly solved grids to the
registry on well formed inputs, then so does the sequential child
recursion over well formed seeds. -/
theorem solve_children_valid
    (f : Grid → Nat → List Grid → TreeNode × List Grid)
    (hf : ∀ g d r, Dims g → EntriesAtMost9 g → ValidGivens g →
      ∀ b ∈ (f g d r).2, b ∈ r ∨ SolvedGrid b) :
    ∀ (seeds : List ChildSeed) (registry : List Grid),
      (∀ seed ∈ seeds, Dims seed.grid ∧ EntriesAtMost9 seed.grid ∧ ValidGivens seed.grid) →
      ∀ b ∈ (solve_children f seeds registry).2, b ∈ registry ∨ SolvedGrid b
  | [], registry, hseeds => by
    intro b hb
    rw [solve_children] at hb
    exact Or.inl hb
  | seed :: rest, registry, hseeds => by
    unfold solve_children
    match hn : f seed.grid seed.depth registry with
    | (node, registry1) =>
      intro b hb
      have h2 := solve_children_valid f hf rest registry1
        (fun sd hsd => hseeds sd (List.mem_cons_of_mem _ hsd)) b hb
      rcases h2 with h2 | h2
      · obtain ⟨hsD, hsE, hsV⟩ := hseeds seed (List.mem_cons_self _ _)
        have h1 := hf seed.grid seed.depth registry hsD hsE hsV b (by rw [hn]; exact h2)
        exact h1
      · exact Or.inr h2

/-- C5, amended: when the input grid is a 9x9 single digit grid whose
givens respect the Sudoku constraint (no row, column or box repeats a
nonzero digit), every grid snapshot a full solve adds to the Solution
Registry is a correctly solved grid: solely digits 1-9 with no 0
remaining, each of the 9 rows, 9 columns and 9 boxes holding each digit
1-9 exactly once.  (Without that hypothesis on the input the code offers
no such guarantee: solving a grid of all 9s registers that grid as is.) -/
theorem registry_entries_solved_for_valid_input :
    ∀ (fuel : Nat) (input : Grid) (depth : Nat) (registry : List Grid),
      Dims input → EntriesAtMost9 input → ValidGivens input →
      ∀ b ∈ (solve_tree_node fuel input depth registry).2, b ∈ registry ∨ SolvedGrid b
  | 0, input, depth, registry, _, _, _ => by
    intro b hb
    rw [solve_tree_node] at hb
    exact Or.inl hb
  | fuel + 1, input, depth, registry, hD, hE, hV => by
    obtain ⟨hreg, hseeds⟩ := solve_board_valid (fuel + 1) input depth registry hD hE hV
    unfold solve_tree_node
    match hb : solve_board (fuel + 1) input depth registry with
    | { outcome := o, rep := rep, registry := reg1, childSeeds := seeds } =>
      rw [hb] at hreg hseeds
      dsimp only at hreg hseeds
      cases o with
      | SOLVED => exact hreg
      | NO_SOLUTIONS => exact hreg
      | OUT_OF_FUEL => exact hreg
      | ASSERT_FAIL => exact hreg
      | UNKNOWN =>
        intro b hbm
        have h2 := solve_children_valid (solve_tree_node fuel)
          (fun g d r => registry_entries_solved_for_valid_input fuel g d r)
          seeds reg1 hseeds b hbm
        rcases h2 with h2 | h2
        · exact hreg b h2
        · exact Or.inr h2

/-- Witness for the C5 theorem: the two solution puzzle is well formed,
and solving it from an empty registry leaves only correctly solved grids
registered. -/
theorem registry_entries_solved_for_valid_input_witness :
    Dims puzzleTwoSolutions ∧ EntriesAtMost9 puzzleTwoSolutions ∧
    ValidGivens puzzleTwoSolutions ∧
    ∀ b ∈ (solve_tree_node 90 puzzleTwoSolutions 0 []).2, b ∈ ([] : List Grid) ∨ SolvedGrid b :=
  ⟨by unfold Dims; decide, by unfold EntriesAtMost9; decide,
    by unfold ValidGivens DupFree; decide,
    registry_entries_solved_for_valid_input 90 puzzleTwoSolutions 0 []
      (by unfold Dims; decide) (by unfold EntriesAtMost9; decide)
      (by unfold ValidGivens DupFree; decide)⟩
